import Mathlib

/-!
Verification development for the icon-mcp-server repository.

The core icon-resolution pipeline (library lookup, AI generation fallback,
Iconify search, stock SVG synthesis) and its helpers are embedded shallowly:

* Pure string-rewriting helpers (`cleanSvgContent`, `processIconName`,
  `generateIconName`, `extractSearchKeywords`, `generateSVGByRules`,
  `isValidSVG`, the Map-based result deduplication) are translated
  function-for-function from the JavaScript source.  The JavaScript regular
  expression replacements are modelled by explicit matcher functions that
  reproduce the leftmost, greedy, global semantics of the specific patterns
  used in the source.
* Network and filesystem effects (GitHub/local library listings, the Tongyi
  and Doubao HTTP endpoints, the Iconify search API) are modelled by an
  environment record `Env`: each external call site reads its outcome from
  the environment (`none` models a thrown error).  The control flow around
  those calls — try/catch structure, credential checks, fallback stages —
  is translated faithfully from the source.

`Core` embeds the pipeline module (src/unnamed/part_002); `IconGen` embeds
the variant in src/services/iconGenerator.js.  JavaScript strings are
modelled as `List Char` wrapped in `String`; character classes (`\s`,
`[a-z]`, …) are modelled over the ASCII range used by the data.
-/

namespace IconMcp

/-- ASCII whitespace, modelling the JavaScript `\s` class and `trim()`
(on the ASCII range; the source data contains no exotic Unicode spaces). -/
def jsWs (c : Char) : Bool :=
  c = ' ' || c = '\t' || c = '\n' || c = '\r' || c = '\x0b' || c = '\x0c'

def isAsciiLower (c : Char) : Bool := 'a' ≤ c && c ≤ 'z'

def isAsciiUpper (c : Char) : Bool := 'A' ≤ c && c ≤ 'Z'

def isAsciiDigit (c : Char) : Bool := '0' ≤ c && c ≤ '9'

/-- Model of JavaScript `toLowerCase` on the characters that occur here. -/
def asciiToLower (c : Char) : Char :=
  if isAsciiUpper c then Char.ofNat (c.toNat + 32) else c

/-- Model of JavaScript `toUpperCase` on the characters that occur here. -/
def asciiToUpper (c : Char) : Char :=
  if isAsciiLower c then Char.ofNat (c.toNat - 32) else c

def isQuote (c : Char) : Bool := c = '"' || c = '\''

/-- Characters admitted by the attribute-value class `[^"'>\s]`. -/
def isVal (c : Char) : Bool := !(isQuote c || c = '>' || jsWs c)

/-- `trimLeft`: drop leading JavaScript whitespace. -/
def trimLeft (l : List Char) : List Char := l.dropWhile jsWs

/-- `trimRight`: drop trailing JavaScript whitespace. -/
def trimRight (l : List Char) : List Char := (l.reverse.dropWhile jsWs).reverse

/-- Model of JavaScript `String.prototype.trim`. -/
def jsTrim (l : List Char) : List Char := trimRight (trimLeft l)

/-- Bool-valued substring test, modelling `String.prototype.includes`. -/
def containsSub (needle : List Char) : List Char → Bool
  | [] => needle.isPrefixOf []
  | c :: rest => needle.isPrefixOf (c :: rest) || containsSub needle rest

/-- A matcher returns `some (consumed, rest)` when the regular expression it
models matches a prefix of the input, splitting the input accordingly. -/
abbrev Matcher := List Char → Option (List Char × List Char)

/-- Fuel-driven scanner modelling a global (`/g`) regex replace: at each
position try the matcher; on a match emit `r` and resume after the match,
otherwise copy one character.  The fuel is always instantiated with the
input length, which bounds the number of steps. -/
def scanGo (m : Matcher) (r : List Char) : Nat → List Char → List Char
  | _, [] => []
  | 0, l => l
  | fuel + 1, c :: rest =>
    match m (c :: rest) with
    | some (_, remaining) => r ++ scanGo m r fuel remaining
    | none => c :: scanGo m r fuel rest

/-- Global regex replace of every match of `m` by `r`. -/
def scanReplace (m : Matcher) (r : List Char) (l : List Char) : List Char :=
  scanGo m r l.length l

/-- Matcher for the two-character escape `\"` (pattern `/\\"/g`). -/
def matchEscQ : Matcher
  | c1 :: c2 :: rest =>
    if c1 = '\\' && c2 = '"' then some (['\\', '"'], rest) else none
  | _ => none

/-- Matcher for the two-character escape `\'` (pattern `/\\'/g`). -/
def matchEscA : Matcher
  | c1 :: c2 :: rest =>
    if c1 = '\\' && c2 = '\'' then some (['\\', '\''], rest) else none
  | _ => none

/-- Scan for the first `?>` pair reachable without crossing a `>`:
the tail of a greedy match of `[^>]*\?>`. -/
def xmlTail : List Char → Option (List Char × List Char)
  | [] => none
  | c :: rest =>
    if c = '?' && rest.head? == some '>' then some (['?', '>'], rest.tail)
    else if c = '>' then none
    else
      match xmlTail rest with
      | some (con, rem) => some (c :: con, rem)
      | none => none

/-- Matcher for the XML declaration pattern `/<\?xml[^>]*\?>/g`. -/
def matchXmlDecl : Matcher := fun l =>
  if ['<', '?', 'x', 'm', 'l'].isPrefixOf l then
    match xmlTail (l.drop 5) with
    | some (con, rem) => some (['<', '?', 'x', 'm', 'l'] ++ con, rem)
    | none => none
  else none

/-- Scan up to and including the first `>` : the tail of `[^>]*>`. -/
def gtTail : List Char → Option (List Char × List Char)
  | [] => none
  | c :: rest =>
    if c = '>' then some (['>'], rest)
    else
      match gtTail rest with
      | some (con, rem) => some (c :: con, rem)
      | none => none

/-- Matcher for the DOCTYPE pattern `/<!DOCTYPE[^>]*>/g`. -/
def matchDoctype : Matcher := fun l =>
  if "<!DOCTYPE".data.isPrefixOf l then
    match gtTail (l.drop 9) with
    | some (con, rem) => some ("<!DOCTYPE".data ++ con, rem)
    | none => none
  else none

/-- Consume an optional leading quote: the `["']?` element. -/
def quoteSplit (t : List Char) : List Char × List Char :=
  match t with
  | c :: r => if isQuote c then ([c], r) else ([], t)
  | [] => ([], [])

/-- Matcher for the attribute pattern `key=["']?[^"'>\s]+["']?\s*`
(used with `key = width` and `key = height`). -/
def matchAttr (key : List Char) : Matcher := fun l =>
  if key.isPrefixOf l then
    let q1 := quoteSplit (l.drop key.length)
    let val := q1.2.takeWhile isVal
    if val = [] then none
    else
      let q2 := quoteSplit (q1.2.dropWhile isVal)
      some (key ++ q1.1 ++ val ++ q2.1 ++ q2.2.takeWhile jsWs, q2.2.dropWhile jsWs)
  else none

def matchWidth : Matcher := matchAttr "width=".data

def matchHeight : Matcher := matchAttr "height=".data

/-- Locate the first match of `/<svg([^>]*)>/` (no `g` flag: first match
only), returning `(pre, capture, post)` with
`input = pre ++ "<svg" ++ capture ++ ">" ++ post`. -/
def findSvgTag : List Char → Option (List Char × List Char × List Char)
  | [] => none
  | c :: rest =>
    if ['<', 's', 'v', 'g'].isPrefixOf (c :: rest) then
      match gtTail ((c :: rest).drop 4) with
      | some (con, rem) => some ([], con.dropLast, rem)
      | none => none
    else
      match findSvgTag rest with
      | some (pre, cap, post) => some (c :: pre, cap, post)
      | none => none

/-- Replace the first `<svg([^>]*)>` by `<svg$1` ++ `extra` ++ `>`:
models the attribute/style injection replacements. -/
def injectSvg (extra : List Char) (l : List Char) : List Char :=
  match findSvgTag l with
  | some (pre, cap, post) => pre ++ ['<', 's', 'v', 'g'] ++ cap ++ extra ++ '>' :: post
  | none => l

/-- The injected width/height attribute text (part_002 policy: `30px`). -/
def attrsWH : List Char := " width=\"30px\" height=\"30px\"".data

/-- The injected inline style attribute text. -/
def attrStyle : List Char := " style=\"display: inline-block; vertical-align: middle;\"".data

namespace Core

/-- SVG canonicalizer `cleanSvgContent` of the pipeline module
(src/unnamed/part_002, lines 508-540 / 1246-1276): unescape `\"`/`\'`,
strip XML declarations, strip existing width/height attributes, inject
fixed 30px width/height into the first svg tag, inject a display style
when absent, strip DOCTYPEs, delete all line breaks, trim. -/
def styleStep (u : List Char) : List Char :=
  if containsSub "style=".data u then u else injectSvg attrStyle u

def cleanSteps (l : List Char) : List Char :=
  let s1 := scanReplace matchEscQ ['"'] l
  let s2 := scanReplace matchEscA ['\''] s1
  let s3 := jsTrim (scanReplace matchXmlDecl [] s2)
  let s4 := scanReplace matchWidth [] s3
  let s5 := scanReplace matchHeight [] s4
  let s6 := injectSvg attrsWH s5
  jsTrim (scanReplace matchDoctype [] (styleStep s6))

def cleanList (l : List Char) : List Char :=
  jsTrim (((cleanSteps l).filter (· ≠ '\n')).filter (· ≠ '\r'))

def cleanSvgContent (s : String) : String :=
  if s = "" then "" else ⟨cleanList s.data⟩

end Core

/-- Maximal-run word splitting, modelling `split(/\s+/)` followed by
filtering out empty fragments.  Fuel-driven; the fuel is instantiated with
the input length, which bounds the number of steps. -/
def wordsGo : Nat → List Char → List (List Char)
  | _, [] => []
  | 0, _ => []
  | fuel + 1, c :: rest =>
    if jsWs c then wordsGo fuel rest
    else
      ((c :: rest).takeWhile (fun x => !jsWs x)) ::
        wordsGo fuel ((c :: rest).dropWhile (fun x => !jsWs x))

def wordsOf (l : List Char) : List (List Char) := wordsGo l.length l

/-- Characters kept by `replace(/[^a-z0-9\s]/g, '')`. -/
def keepNameChar (c : Char) : Bool := isAsciiLower c || isAsciiDigit c || jsWs c

/-- Uppercase the first character of a word (`charAt(0).toUpperCase() + slice(1)`). -/
def upFirst : List Char → List Char
  | [] => []
  | c :: rest => asciiToUpper c :: rest

/-- `generateIconName` (src/unnamed/part_002 lines 1219-1241 and the
identical copy in src/services/iconGenerator.js): lowercase, drop all
characters outside `[a-z0-9\s]`, split into words, keep the first three,
camel-case-join them; `GeneratedIcon` when no word remains. -/
def generateIconName (description : String) : String :=
  let words := (wordsOf ((description.data.map asciiToLower).filter keepNameChar)).take 3
  match words with
  | [] => "GeneratedIcon"
  | w :: ws => ⟨w ++ (ws.map upFirst).flatten⟩

/-- One global pass of `replace(/([a-z])([A-Z])/g, '$1-$2')`. -/
def camelPass : List Char → List Char
  | a :: b :: rest =>
    if isAsciiLower a && isAsciiUpper b then a :: '-' :: b :: camelPass rest
    else a :: camelPass (b :: rest)
  | l => l

/-- Strip one trailing `outlined`/`filled` (pattern `/(outlined|filled)$/g`). -/
def stripFormatSuffix (l : List Char) : List Char :=
  if "outlined".data.isSuffixOf l then l.take (l.length - 8)
  else if "filled".data.isSuffixOf l then l.take (l.length - 6)
  else l

/-- Name normalizer `processIconName` (src/unnamed/part_000 lines 31-47):
lowercase, strip a trailing `outlined`/`filled`, apply the camelCase
boundary rewrite `([a-z])([A-Z]) -> $1-$2` with a further lowercase, trim. -/
def processIconName (name : String) : String :=
  if name = "" then name
  else
    let p1 := name.data.map asciiToLower
    let p2 := stripFormatSuffix p1
    let p3 := (camelPass p2).map asciiToLower
    ⟨jsTrim p3⟩

/-- The static bilingual keyword map of `extractSearchKeywords`
(src/unnamed/part_002 lines 640-677), in object-literal insertion order. -/
def keywordMap : List (String × String) :=
  [("删除", "delete"), ("delete", "delete"), ("remove", "delete"),
   ("添加", "add"), ("add", "add"), ("plus", "add"),
   ("编辑", "edit"), ("edit", "edit"), ("修改", "edit"),
   ("保存", "save"), ("save", "save"),
   ("搜索", "search"), ("search", "search"), ("查找", "search"),
   ("关闭", "close"), ("close", "close"),
   ("取消", "cancel"), ("cancel", "cancel"),
   ("确认", "confirm"), ("confirm", "confirm"), ("确定", "confirm"),
   ("上传", "upload"), ("upload", "upload"),
   ("下载", "download"), ("download", "download"),
   ("设置", "setting"), ("setting", "setting"), ("配置", "setting"),
   ("用户", "user"), ("user", "user"),
   ("主页", "home"), ("home", "home"),
   ("菜单", "menu"), ("menu", "menu"),
   ("更多", "more"), ("more", "more")]

/-- `extractSearchKeywords` (src/unnamed/part_002 lines 635-699): collect
the canonical token of every map entry whose key occurs in the lowercased
description; if none matched, fall back to up to three words of length
greater than two, with non-`[a-z0-9\s]` characters treated as separators. -/
def extractSearchKeywords (description : String) : List String :=
  let lowerDesc := description.data.map asciiToLower
  let keywords := (keywordMap.filter (fun kv => containsSub kv.1.data lowerDesc)).map (·.2)
  if keywords = [] then
    ((wordsOf (lowerDesc.map (fun c => if keepNameChar c then c else ' '))).filter
        (fun w => 2 < w.length)).take 3 |>.map (⟨·⟩)
  else keywords

/-- `isValidSVG` (src/unnamed/part_002 lines 844-861): non-empty, contains
an opening and a closing svg tag and at least one sizing hint. -/
def isValidSVG (svgCode : String) : Bool :=
  if svgCode = "" then false
  else if !(containsSub "<svg".data svgCode.data) || !(containsSub "</svg>".data svgCode.data) then
    false
  else if !(containsSub "viewBox".data svgCode.data) && !(containsSub "width".data svgCode.data)
      && !(containsSub "height".data svgCode.data) then
    false
  else true

def tmplA : String := "<svg width=\"24\" height=\"24\" viewBox=\"0 0 24 24\" fill=\""

def tmplB : String := "\" xmlns=\"http://www.w3.org/2000/svg\">\n  "

def tmplC : String := "\n</svg>"

/-- Shared template of the rule-based stock SVGs in `generateSVGByRules`:
all three style configurations use viewBox `0 0 24 24`, and only the
`fill` value is interpolated into the markup (the `stroke` entries of the
configuration are never referenced by the templates). -/
def svgRulesTmpl (fill body : String) : String :=
  tmplA ++ fill ++ tmplB ++ body ++ tmplC

/-- Alphanumeric ASCII characters: the alphabet of generated icon names. -/
def goodChar (c : Char) : Bool := isAsciiUpper c || isAsciiLower c || isAsciiDigit c

def deleteBody : String :=
  "<path d=\"M12 2C6.48 2 2 6.48 2 12s4.48 10 10 10 10-4.48 10-10S17.52 2 12 2zm5 11H7v-2h10v2z\"/>"

def addBody : String :=
  "<path d=\"M19 13h-6v6h-2v-6H5v-2h6V5h2v6h6v2z\"/>"

def editBody : String :=
  "<path d=\"M3 17.25V21h3.75L17.81 9.94l-3.75-3.75L3 17.25zM20.71 7.04c.39-.39.39-1.02 0-1.41l-2.34-2.34c-.39-.39-1.02-.39-1.41 0l-1.83 1.83 3.75 3.75 1.83-1.83z\"/>"

def phA : String :=
  "<rect width=\"24\" height=\"24\" fill=\"currentColor\" opacity=\"0.1\"/>\n  <text x=\"50%\" y=\"50%\" text-anchor=\"middle\" dominant-baseline=\"middle\" font-size=\"12\" fill=\"currentColor\">"

def phC : String := "</text>"

def placeholderBody (initials : String) : String := phA ++ initials ++ phC

def containsAnyOf (l : List Char) (needles : List String) : Bool :=
  needles.any (fun n => containsSub n.data l)

/-- `generateSVGByRules` (src/unnamed/part_002 lines 786-839): pick the
fill from the style configuration, then pattern-match the description
against delete/add/edit intents in both languages, falling back to a
placeholder glyph labelled with the first two letters of the generated
icon name, uppercased. -/
def generateSVGByRules (description style : String) : String :=
  let fill := if style = "ant-design" then "none" else "currentColor"
  let lowerDesc := description.data.map asciiToLower
  if containsAnyOf lowerDesc ["删除", "delete", "remove"] then svgRulesTmpl fill deleteBody
  else if containsAnyOf lowerDesc ["添加", "add", "plus"] then svgRulesTmpl fill addBody
  else if containsAnyOf lowerDesc ["编辑", "edit", "修改"] then svgRulesTmpl fill editBody
  else
    svgRulesTmpl fill
      (placeholderBody ⟨((generateIconName description).data.take 2).map asciiToUpper⟩)

/-- `buildSVGPrompt` (src/unnamed/part_002 lines 290-325). -/
def buildSVGPrompt (description style : String) : String :=
  let g : String × String × String :=
    if style = "element-plus" then
      ("Element Plus",
       "minimalist, clean lines, modern, simple geometric shapes, single color (currentColor), 24x24 viewBox",
       "Use simple paths, circles, rectangles. Avoid complex gradients. Use fill=\"currentColor\" for single color icons.")
    else if style = "ant-design" then
      ("Ant Design",
       "professional, consistent stroke width (1.5-2px), rounded corners, balanced proportions, 24x24 viewBox",
       "Use stroke-based design, consistent line width, rounded end caps. Use fill=\"none\" and stroke=\"currentColor\".")
    else
      ("Simple",
       "clean, simple, modern, 24x24 viewBox, single color",
       "Use simple shapes, clear lines, fill=\"currentColor\" or stroke=\"currentColor\".")
  "Generate a " ++ g.1 ++ " style SVG icon based on this description: \"" ++ description ++
    "\"\n\nRequirements:\n- Style: " ++ g.2.1 ++ "\n- ViewBox: 0 0 24 24\n- " ++ g.2.2 ++
    "\n- The icon should be simple and recognizable" ++
    "\n- Use only SVG elements: path, circle, rect, line, polygon, polyline" ++
    "\n- Output ONLY the SVG code, no explanations, no markdown, no code blocks" ++
    "\n- Start with <svg> and end with </svg>" ++
    "\n- Width and height should be 24px" ++
    "\n- Use currentColor for fill or stroke to support theme colors" ++
    "\n\nGenerate the SVG code now:"

/-- A raw icon as produced by the library adapters (`getElementPlusIcons`,
`getAntDesignIcons`) and by the Iconify search. -/
structure LibIcon where
  source : String
  name : String
  svg : String
  rawSvg : String
deriving DecidableEq, Repr

/-- The canonical output record of the pipeline.  Fields the JavaScript
code leaves `undefined` on some records (the Iconify stage spreads plain
`{source, name, svg, rawSvg}` objects into the result list) are optional. -/
structure IconRecord where
  code : Option Int
  source : String
  name : String
  svg : String
  rawSvg : String
  description : Option String
  style : Option String
  model : Option String
deriving DecidableEq, Repr

/-- The dedup key `` `${icon.source}-${icon.name}` `` used by every
deduplication site. -/
def iconKey (r : IconRecord) : String := r.source ++ "-" ++ r.name

def libKey (i : LibIcon) : String := i.source ++ "-" ++ i.name

/-- In-place value overwrite keeping the original key position, modelling
`Map.prototype.set`. -/
def dedupInsert {α : Type} (k : String) (v : α) : List (String × α) → List (String × α)
  | [] => [(k, v)]
  | (k', v') :: rest =>
    if k' = k then (k', v) :: rest else (k', v') :: dedupInsert k v rest

/-- `Array.from(new Map(list.map(x => [key(x), x])).values())`: one entry
per distinct key in first-occurrence order, each holding the last value
seen for that key. -/
def dedupe {α : Type} (key : α → String) (l : List α) : List α :=
  (l.foldl (fun m x => dedupInsert (key x) x m) []).map (·.2)

/-- First-occurrence order of a key sequence (specification helper for the
order-preservation property of `dedupe`). -/
def firstOccurrences (l : List String) : List String :=
  l.foldl (fun acc k => if k ∈ acc then acc else acc ++ [k]) []

/-- Environment of external effects consumed by the pipeline module.  Each
field models the outcome of one kind of awaited call; `none`/`[]` model a
thrown error or an empty degraded result, exactly the two outcomes the
JavaScript call sites distinguish. -/
structure Env where
  /-- Outcome of `getElementPlusIcons(name, true)` (local, fuzzy). -/
  elementPlus : String → List LibIcon
  /-- Outcome of `getAntDesignIcons(name, undefined, true)` (local, both formats). -/
  antDesign : String → List LibIcon
  /-- Whether `process.env.DASHSCOPE_API_KEY` is set. -/
  hasTongyiKey : Bool
  /-- Whether `process.env.DOUBAO_API_KEY` is set. -/
  hasDoubaoKey : Bool
  /-- Outcome of `generateSVGWithTongyi(prompt)`; `none` models a throw. -/
  tongyi : String → Option String
  /-- Outcome of `generateSVGWithDoubao(prompt)`; `none` models a throw. -/
  doubao : String → Option String
  /-- Outcome of `generateWithTongyi(prompt)` (text/image endpoint used by
  the keyword enumeration); `none` models a throw. -/
  tongyiText : String → Option String
  /-- Outcome of `generateWithDoubao(prompt)`; `none` models a throw. -/
  doubaoText : String → Option String
  /-- Records produced by `searchIconFromIconify(query)` (the function
  already swallows its own errors and returns `[]`). -/
  iconify : String → List LibIcon

namespace Core

/-- The model priority list of `selectAvailableModel`
(src/unnamed/part_002 lines 215-230). -/
def modelPriority : List String := ["tongyi", "doubao"]

/-- `hasApiKeyForModel` (src/unnamed/part_002 lines 235-244). -/
def hasApiKeyForModel (env : Env) (model : String) : Bool :=
  if model = "tongyi" then env.hasTongyiKey
  else if model = "doubao" then env.hasDoubaoKey
  else false

/-- `selectAvailableModel` (src/unnamed/part_002 lines 215-230): first
model of the priority list whose credential check passes, else `none`. -/
def selectAvailableModel (env : Env) : Option String :=
  modelPriority.find? (hasApiKeyForModel env)

/-- `searchIconFromLibrary` (src/unnamed/part_002 lines 442-503) with the
default `returnAll = false`: extract keywords, query the libraries chosen
by `style`, dedupe by `source-name`, return the first record's
`rawSvg || svg` (or `none`). -/
def searchIconFromLibrary (env : Env) (description style : String) : Option String :=
  let keywords := extractSearchKeywords description
  if keywords = [] then none
  else
    let allIcons :=
      if style = "" || style = "default" then
        keywords.flatMap (fun k => env.elementPlus k ++ env.antDesign k)
      else if style = "element-plus" then keywords.flatMap env.elementPlus
      else if style = "ant-design" then keywords.flatMap env.antDesign
      else []
    match dedupe libKey allIcons with
    | [] => none
    | u :: _ => some (if u.rawSvg ≠ "" then u.rawSvg else u.svg)

/-- `generateSVGCode` (src/unnamed/part_002 lines 330-368), instrumented
with the list of provider adapters actually invoked: explicit model first,
then Tongyi/Doubao by credential, then the library fallback; result `none`
models the function throwing. -/
def generateSVGCodeT (env : Env) (description style : String) (model : Option String) :
    Option String × List String :=
  let prompt := buildSVGPrompt description style
  if model = some "tongyi" then (env.tongyi prompt, ["tongyi"])
  else if model = some "doubao" then (env.doubao prompt, ["doubao"])
  else if env.hasTongyiKey then (env.tongyi prompt, ["tongyi"])
  else if env.hasDoubaoKey then (env.doubao prompt, ["doubao"])
  else
    match searchIconFromLibrary env description style with
    | some svg => if svg ≠ "" then (some svg, []) else (none, [])
    | none => (none, [])

def generateSVGCode (env : Env) (description style : String) (model : Option String) :
    Option String :=
  (generateSVGCodeT env description style model).1

/-- `model || selectAvailableModel()` with JavaScript falsiness of the
empty string. -/
def usedModel (env : Env) (model : Option String) : Option String :=
  match model with
  | some m => if m = "" then selectAvailableModel env else some m
  | none => selectAvailableModel env

/-- The `if (allIcons.length === 0)` cascade of `generateIcon`: a later
stage runs only when every earlier stage produced nothing. -/
def nonEmptyOr (a b : List IconRecord) : List IconRecord :=
  if a = [] then b else a

/-- The stage-4 stock record of `generateIcon` (src/unnamed/part_002
lines 101-115). -/
def stockIcon (description pfx searchName : String) : IconRecord :=
  { code := some (-1), source := "AI生成", name := searchName,
    svg := generateSVGByRules description pfx,
    rawSvg := cleanSvgContent (generateSVGByRules description pfx),
    description := some description, style := some pfx, model := some "default" }

/-- `generateIcon` (src/unnamed/part_002 lines 21-137): the four-stage
resolution pipeline.  Every awaited call inside the function either
carries its own try/catch or is a library adapter that returns `[]` on
failure, so the surrounding catch handler is unreachable and the function
is total: it is embedded as a plain function (totality models the
"never throws" contract). -/
def generateIcon (env : Env) (description pfx : String)
    (model : Option String) (name : Option String) : List IconRecord :=
  let searchName :=
    match name with
    | some n => if n = "" then generateIconName description else n
    | none => generateIconName description
  let localIcons : List LibIcon :=
    if searchName ≠ "" then
      if pfx = "element-plus" then env.elementPlus searchName
      else if pfx = "ant-design" then env.antDesign searchName
      else (env.elementPlus searchName).take 1 ++ (env.antDesign searchName).take 1
    else []
  let stage1 : List IconRecord := localIcons.map (fun icon =>
    { code := some 0,
      source := if icon.source = "Ant Design" then "Ant Design" else "Element Plus",
      name := icon.name, svg := icon.svg,
      rawSvg := if icon.rawSvg ≠ "" then icon.rawSvg else cleanSvgContent icon.svg,
      description := some description, style := some pfx, model := some "local" })
  let stage2 : List IconRecord :=
    match generateSVGCode env description pfx model with
    | some svgContent =>
      if svgContent ≠ "" && isValidSVG svgContent then
        [{ code := some 0, source := "AI生成", name := searchName, svg := svgContent,
           rawSvg := cleanSvgContent svgContent, description := some description,
           style := some pfx, model := usedModel env model }]
      else []
    | none => []
  let query := match name with
    | some n => if n = "" then description else n
    | none => description
  let stage3 : List IconRecord := (env.iconify query).map (fun i =>
    { code := none, source := i.source, name := i.name, svg := i.svg,
      rawSvg := i.rawSvg, description := none, style := none, model := none })
  nonEmptyOr stage1
    (nonEmptyOr stage2
      (nonEmptyOr stage3 [stockIcon description pfx searchName]))

/-- The keyword-enumeration prompt of `generateIconKeywords`
(src/unnamed/part_002 lines 594-603). -/
def keywordPrompt (category : String) (count : Nat) : String :=
  "请将\"" ++ category ++ "\"这个图标类别扩展为" ++ toString count ++
    "个具体的图标名称，要求：\n1. 每个图标名称简洁明了\n2. 直接相关于" ++ category ++
    "\n3. 只需要中文名称，不需要英文\n4. 用逗号分隔\n5. 不要添加任何解释\n\n例如：\n类别：办公类\n输出：文件,编辑,保存,删除,新建,搜索,打印,设置,用户,菜单"

/-- Comma splitting for the keyword list (`split(',')`). -/
def splitCommas : List Char → List (List Char)
  | [] => [[]]
  | ',' :: rest => [] :: splitCommas rest
  | c :: rest =>
    match splitCommas rest with
    | w :: ws => (c :: w) :: ws
    | [] => [[c]]

/-- Parse the AI keyword text: split on commas, trim, drop empties, keep
the first `count` (src/unnamed/part_002 lines 619-623). -/
def parseKeywords (text : String) (count : Nat) : List String :=
  (((splitCommas text.data).map jsTrim).filter (· ≠ [])).take count |>.map (⟨·⟩)

/-- `generateIconKeywords` (src/unnamed/part_002 lines 592-630): ask the
selected provider for `count` comma-separated names; without a provider or
on a throw, fall back to the single keyword `默认图标`. -/
def generateIconKeywords (env : Env) (category : String) (count : Nat) : List String :=
  match selectAvailableModel env with
  | some m =>
    if m = "tongyi" then
      match env.tongyiText (keywordPrompt category count) with
      | some t => parseKeywords t count
      | none => ["默认图标"]
    else if m = "doubao" then
      match env.doubaoText (keywordPrompt category count) with
      | some t => parseKeywords t count
      | none => ["默认图标"]
    else ["默认图标"]
  | none => ["默认图标"]

/-- The padding record of `generateIconsByCategory` (src/unnamed/part_002
lines 175-188). -/
def padIcon (category pfx : String) (i : Nat) : IconRecord :=
  { code := some (-1), source := "AI生成",
    name := generateIconName category ++ "-" ++ toString i,
    svg := generateSVGByRules category pfx,
    rawSvg := cleanSvgContent (generateSVGByRules category pfx),
    description := some (category ++ "图标"), style := some pfx, model := some "default" }

/-- The per-keyword loop of `generateIconsByCategory`: resolve each
keyword through `generateIcon`, keep the first record, stop once `count`
records are accumulated. -/
def catLoop (env : Env) (category pfx : String) (model : Option String) (count : Nat) :
    List String → List IconRecord → List IconRecord
  | [], acc => acc
  | k :: rest, acc =>
    let gen := generateIcon env (category ++ "图标：" ++ k) pfx model (some k)
    let acc' := match gen with
      | [] => acc
      | g :: _ => acc ++ [g]
    if count ≤ acc'.length then acc' else catLoop env category pfx model count rest acc'

/-- The `while (allIcons.length < count)` padding loop. -/
def padIcons (category pfx : String) (count : Nat) (acc : List IconRecord) :
    List IconRecord :=
  if acc.length < count then
    padIcons category pfx count (acc ++ [padIcon category pfx (acc.length + 1)])
  else acc
termination_by count - acc.length
decreasing_by simp_all; omega

/-- `generateIconsByCategory` (src/unnamed/part_002 lines 147-210): the
category expansion pipeline.  As with `generateIcon`, every awaited call
handles its own failures, so the surrounding catch handler is unreachable
and the function is embedded as the main path. -/
def generateIconsByCategory (env : Env) (category : String) (count : Nat)
    (pfx : String) (model : Option String) : List IconRecord :=
  let keywords := generateIconKeywords env category count
  padIcons category pfx count (catLoop env category pfx model count keywords [])

end Core

/-- Environment for the `src/services/iconGenerator.js` variant of the
pipeline (remote library adapters, a larger provider set). -/
structure EnvG where
  /-- Whether `OPENAI_API_KEY || AI_API_KEY` is set. -/
  hasOpenAIKey : Bool
  hasTongyiKey : Bool
  /-- Whether both `WENXIN_API_KEY` and `WENXIN_SECRET_KEY` are set. -/
  hasWenxinKeys : Bool
  hasZhipuKey : Bool
  hasKimiKey : Bool
  hasDoubaoKey : Bool
  /-- Outcome of `generateSVGWithOpenAI(prompt)`; `none` models a throw. -/
  openai : String → Option String
  /-- Outcome of `generateSVGWithTongyi(prompt)`; `none` models a throw. -/
  tongyi : String → Option String
  /-- Outcome of `getElementPlusIcons(keyword)` (remote, fuzzy). -/
  elementPlus : String → List LibIcon
  /-- Outcome of `getAntDesignIcons(keyword)` (remote, fuzzy). -/
  antDesign : String → List LibIcon

namespace IconGen

/-- `cleanSvgContent` of src/services/iconGenerator.js (lines 953-961):
strip XML declarations, then inject 30px width/height into the first svg
tag only when neither a `width=` nor a `height=` substring is present. -/
def cleanSvgContent (s : String) : String :=
  let c1 := jsTrim (scanReplace matchXmlDecl [] s.data)
  if !(containsSub "width=".data c1) && !(containsSub "height=".data c1) then
    ⟨injectSvg attrsWH c1⟩
  else ⟨c1⟩

/-- `hasApiKeyForModel` of src/services/iconGenerator.js (lines 118-137). -/
def hasApiKeyForModel (env : EnvG) (model : String) : Bool :=
  if model = "openai" then env.hasOpenAIKey
  else if model = "tongyi" then env.hasTongyiKey
  else if model = "wenxin" then env.hasWenxinKeys
  else if model = "zhipu" then env.hasZhipuKey
  else if model = "kimi" then env.hasKimiKey
  else if model = "doubao" then env.hasDoubaoKey
  else if model = "huggingface" then true
  else false

/-- `selectAvailableModel` of src/services/iconGenerator.js (lines
94-113): falls back to the keyless `huggingface` provider tag. -/
def selectAvailableModel (env : EnvG) : String :=
  match ["tongyi", "wenxin", "zhipu", "kimi", "doubao", "openai"].find?
      (hasApiKeyForModel env) with
  | some m => m
  | none => "huggingface"

/-- `searchIconFromLibrary` of src/services/iconGenerator.js (lines
281-337): like the pipeline-module version but querying the remote
adapters. -/
def searchIconFromLibrary (env : EnvG) (description style : String) : Option String :=
  let keywords := extractSearchKeywords description
  if keywords = [] then none
  else
    let allIcons :=
      if style = "" || style = "default" then
        keywords.flatMap (fun k => env.elementPlus k ++ env.antDesign k)
      else if style = "element-plus" then keywords.flatMap env.elementPlus
      else if style = "ant-design" then keywords.flatMap env.antDesign
      else []
    match dedupe libKey allIcons with
    | [] => none
    | u :: _ => some (if u.rawSvg ≠ "" then u.rawSvg else u.svg)

/-- `generateSVGCode` of src/services/iconGenerator.js (lines 238-276):
explicit OpenAI (when credentialed) or Tongyi, then OpenAI/Tongyi by
credential, then the library fallback; `none` models a throw. -/
def generateSVGCode (env : EnvG) (description style : String) (model : Option String) :
    Option String :=
  let prompt := buildSVGPrompt description style
  if model = some "openai" && hasApiKeyForModel env "openai" then env.openai prompt
  else if model = some "tongyi" then env.tongyi prompt
  else if hasApiKeyForModel env "openai" then env.openai prompt
  else if hasApiKeyForModel env "tongyi" then env.tongyi prompt
  else
    match searchIconFromLibrary env description style with
    | some svg => if svg ≠ "" then some svg else none
    | none => none

/-- The failure record of `generateIcon` in src/services/iconGenerator.js
(lines 63-72 and 78-87): note the empty `svg` and `rawSvg`. -/
def fallbackIcon (description style : String) : IconRecord :=
  { code := some (-1), source := "AI Generated (Fallback)",
    name := generateIconName description, svg := "", rawSvg := "",
    description := some description, style := some style, model := some "fallback" }

/-- `generateIcon` of src/services/iconGenerator.js (lines 25-89): returns
a single record — the AI-generated icon on success, otherwise the fallback
record with empty markup. -/
def generateIcon (env : EnvG) (description style : String) (model : Option String) :
    IconRecord :=
  let iconName := generateIconName description
  match generateSVGCode env description style model with
  | some svgContent =>
    if svgContent ≠ "" && isValidSVG svgContent then
      { code := some 0, source := "AI Generated", name := iconName, svg := svgContent,
        rawSvg := cleanSvgContent svgContent, description := some description,
        style := some style,
        model := some (match model with
          | some m => if m = "" then selectAvailableModel env else m
          | none => selectAvailableModel env) }
    else fallbackIcon description style
  | none => fallbackIcon description style

end IconGen

/-- An environment in which every external call fails or returns nothing:
no credentials, no library matches, no Iconify results. -/
def envEmpty : Env :=
  { elementPlus := fun _ => [], antDesign := fun _ => [],
    hasTongyiKey := false, hasDoubaoKey := false,
    tongyi := fun _ => none, doubao := fun _ => none,
    tongyiText := fun _ => none, doubaoText := fun _ => none,
    iconify := fun _ => [] }

/-- The all-failing environment for the iconGenerator.js variant. -/
def envGEmpty : EnvG :=
  { hasOpenAIKey := false, hasTongyiKey := false, hasWenxinKeys := false,
    hasZhipuKey := false, hasKimiKey := false, hasDoubaoKey := false,
    openai := fun _ => none, tongyi := fun _ => none,
    elementPlus := fun _ => [], antDesign := fun _ => [] }

/-- Does the string contain a match of the code's own XML-declaration
pattern `/<\?xml[^>]*\?>/` at some position? -/
def hasXmlDeclAt : List Char → Bool
  | [] => (matchXmlDecl []).isSome
  | c :: rest => (matchXmlDecl (c :: rest)).isSome || hasXmlDeclAt rest

def hasXmlDecl (s : String) : Bool := hasXmlDeclAt s.data

/-- Does the string contain a match of the DOCTYPE pattern at some position? -/
def hasDoctypeAt : List Char → Bool
  | [] => (matchDoctype []).isSome
  | c :: rest => (matchDoctype (c :: rest)).isSome || hasDoctypeAt rest

def hasDoctype (s : String) : Bool := hasDoctypeAt s.data

/-- No suffix of the list matches `m`: the corresponding global replace is
a no-op. -/
def noMatches (m : Matcher) : List Char → Bool
  | [] => (m []).isNone
  | c :: rest => (m (c :: rest)).isNone && noMatches m rest

/-- A string none of the canonicalizer's rewrite steps can touch: no
escape pairs, no XML declaration, no width/height attribute, no DOCTYPE,
no svg opening tag, no line breaks, no surrounding whitespace. -/
def cleanUntouched (s : String) : Bool :=
  noMatches matchEscQ s.data && noMatches matchEscA s.data &&
  noMatches matchXmlDecl s.data && noMatches matchWidth s.data &&
  noMatches matchHeight s.data && noMatches matchDoctype s.data &&
  (findSvgTag s.data).isNone &&
  s.data.all (fun c => c ≠ '\n' && c ≠ '\r') &&
  jsTrim s.data == s.data

/-- Concrete records exhibiting the dedup-key collision: distinct
`(source, name)` pairs with the same concatenated key. -/
def collideA : IconRecord :=
  { code := some 0, source := "A-B", name := "C", svg := "x", rawSvg := "x",
    description := none, style := none, model := none }

def collideB : IconRecord :=
  { code := some 0, source := "A", name := "B-C", svg := "y", rawSvg := "y",
    description := none, style := none, model := none }

/-- `dedupe` restated as a fold carrying the accumulated map explicitly. -/
def dedupeFold {α : Type} (key : α → String) (l : List α) (m : List (String × α)) :
    List (String × α) :=
  l.foldl (fun acc x => dedupInsert (key x) x acc) m

end IconMcp

namespace IconMcp

/-! ## Supporting lemmas -/

theorem mem_trimLeft {a : Char} {l : List Char} (h : a ∈ trimLeft l) : a ∈ l :=
  (List.dropWhile_sublist jsWs).mem h

theorem mem_trimRight {a : Char} {l : List Char} (h : a ∈ trimRight l) : a ∈ l := by
  unfold trimRight at h
  rw [List.mem_reverse] at h
  exact List.mem_reverse.mp ((List.dropWhile_sublist jsWs).mem h)

theorem mem_jsTrim {a : Char} {l : List Char} (h : a ∈ jsTrim l) : a ∈ l :=
  mem_trimLeft (mem_trimRight h)

theorem scanGo_id {m : Matcher} {r : List Char} {l : List Char}
    (h : noMatches m l = true) : ∀ fuel, scanGo m r fuel l = l := by
  induction l with
  | nil => intro fuel; cases fuel <;> rfl
  | cons c rest ih =>
    intro fuel
    unfold noMatches at h
    simp only [Bool.and_eq_true, Option.isNone_iff_eq_none] at h
    cases fuel with
    | zero => rfl
    | succ fuel =>
      unfold scanGo
      rw [h.1]
      simp [ih h.2 fuel]

theorem scanReplace_id {m : Matcher} {r : List Char} {l : List Char}
    (h : noMatches m l = true) : scanReplace m r l = l :=
  scanGo_id h l.length

theorem injectSvg_id {extra : List Char} {l : List Char}
    (h : (findSvgTag l).isNone = true) : injectSvg extra l = l := by
  unfold injectSvg
  rw [Option.isNone_iff_eq_none] at h
  rw [h]

theorem filter_eq_self_of_all {p : Char → Bool} {l : List Char}
    (h : ∀ a ∈ l, p a = true) : l.filter p = l :=
  List.filter_eq_self.mpr h

/-- The canonicalizer is the identity on strings it cannot touch. -/
theorem cleanList_id {l : List Char}
    (h1 : noMatches matchEscQ l = true) (h2 : noMatches matchEscA l = true)
    (h3 : noMatches matchXmlDecl l = true) (h4 : noMatches matchWidth l = true)
    (h5 : noMatches matchHeight l = true) (h6 : noMatches matchDoctype l = true)
    (h7 : (findSvgTag l).isNone = true)
    (h8 : l.all (fun c => c ≠ '\n' && c ≠ '\r') = true)
    (h9 : jsTrim l = l) : Core.cleanList l = l := by
  simp only [List.all_eq_true, Bool.and_eq_true, decide_eq_true_eq] at h8
  have hf1 : List.filter (fun x => decide (x ≠ '\n')) l = l :=
    List.filter_eq_self.mpr (fun a ha => by simpa using (h8 a ha).1)
  have hf2 : List.filter (fun x => decide (x ≠ '\r')) l = l :=
    List.filter_eq_self.mpr (fun a ha => by simpa using (h8 a ha).2)
  have hstyle : Core.styleStep l = l := by
    unfold Core.styleStep
    split
    · rfl
    · exact injectSvg_id h7
  have hsteps : Core.cleanSteps l = l := by
    unfold Core.cleanSteps
    simp only [scanReplace_id h1, scanReplace_id h2, scanReplace_id h3, h9,
      scanReplace_id h4, scanReplace_id h5, injectSvg_id h7, hstyle,
      scanReplace_id h6]
  unfold Core.cleanList
  rw [hsteps, hf1, hf2, h9]

theorem cleanSvgContent_id {s : String} (h : cleanUntouched s = true) :
    Core.cleanSvgContent s = s := by
  unfold cleanUntouched at h
  simp only [Bool.and_eq_true, beq_iff_eq] at h
  obtain ⟨⟨⟨⟨⟨⟨⟨⟨h1, h2⟩, h3⟩, h4⟩, h5⟩, h6⟩, h7⟩, h8⟩, h9⟩ := h
  unfold Core.cleanSvgContent
  split
  · simp_all
  · exact congrArg String.mk (cleanList_id h1 h2 h3 h4 h5 h6 h7 h8 h9)

end IconMcp

namespace IconMcp

/-! ## Claim theorems -/

/-- C3 counterexample: the canonicalizer is not idempotent.  On
`<svg><rect/></svg>` the first pass yields
`<svg width="30px" height="30px" style="…">…`, and the second pass strips
the injected width/height attributes and re-appends them after the style
attribute, producing a different string. -/
theorem c3_counterexample :
    Core.cleanSvgContent (Core.cleanSvgContent "<svg><rect/></svg>") ≠
      Core.cleanSvgContent "<svg><rect/></svg>" := by decide

/-- C3 (amended): the canonicalizer is not idempotent in general — a
second application strips and re-appends the injected width/height
attributes, reordering the opening tag.  It is idempotent (indeed the
identity) on inputs none of its rewrite steps can touch: strings with no
escape pair, XML declaration, width/height attribute, DOCTYPE, svg opening
tag, line break, or surrounding whitespace. -/
theorem c3_amended_idempotent_on_untouched (s : String)
    (h : cleanUntouched s = true) :
    Core.cleanSvgContent (Core.cleanSvgContent s) = Core.cleanSvgContent s := by
  rw [cleanSvgContent_id h, cleanSvgContent_id h]

/-- Witness for the amended C3 theorem at the concrete input `<rect/>`. -/
theorem c3_amended_witness :
    cleanUntouched "<rect/>" = true ∧
      Core.cleanSvgContent (Core.cleanSvgContent "<rect/>") =
        Core.cleanSvgContent "<rect/>" :=
  ⟨by decide, c3_amended_idempotent_on_untouched "<rect/>" (by decide)⟩

/-- C4 counterexample: the width-attribute removal can splice the
surrounding characters into a fresh XML declaration.  On input
`<?xmwidth="a"l ?>` (which contains no XML declaration) the canonicalizer
returns `<?xml ?>`, which matches the code's own declaration pattern
`<\?xml[^>]*\?>`; likewise newline removal can splice `<!DOC` + newline +
`TYPE x>` into a DOCTYPE. -/
theorem c4_counterexample :
    Core.cleanSvgContent "<?xmwidth=\"a\"l ?>" = "<?xml ?>" ∧
      hasXmlDecl (Core.cleanSvgContent "<?xmwidth=\"a\"l ?>") = true ∧
      Core.cleanSvgContent "<!DOC\nTYPE x>" = "<!DOCTYPE x>" ∧
      hasDoctype (Core.cleanSvgContent "<!DOC\nTYPE x>") = true := by decide

/-- C4 (amended): for every input the canonicalizer's output contains no
raw newline and no carriage return (the final rewrite steps delete them
and nothing reintroduces them); the no-XML-declaration and no-DOCTYPE
parts of the claim do not hold for all inputs, because the
attribute-removal and line-break-removal steps can splice a declaration
back together after the stripping steps have run. -/
theorem data_mk (l : List Char) : (String.mk l).data = l := rfl

theorem cleanList_eq (l : List Char) :
    Core.cleanList l =
      jsTrim (((Core.cleanSteps l).filter (fun x => decide (x ≠ '\n'))).filter
        (fun x => decide (x ≠ '\r'))) := rfl

theorem no_linebreaks_final (u : List Char) :
    '\n' ∉ jsTrim ((u.filter (fun x => decide (x ≠ '\n'))).filter (fun x => decide (x ≠ '\r'))) ∧
      '\r' ∉ jsTrim ((u.filter (fun x => decide (x ≠ '\n'))).filter (fun x => decide (x ≠ '\r'))) := by
  constructor
  · intro hmem
    have h1 := (List.mem_filter.mp (mem_jsTrim hmem)).1
    have h2 := List.of_mem_filter h1
    simp at h2
  · intro hmem
    have h2 := List.of_mem_filter (mem_jsTrim hmem)
    simp at h2

theorem c4_amended_no_linebreaks (s : String) :
    '\n' ∉ (Core.cleanSvgContent s).data ∧ '\r' ∉ (Core.cleanSvgContent s).data := by
  unfold Core.cleanSvgContent
  split
  · simp
  · rw [data_mk, cleanList_eq]
    exact no_linebreaks_final (Core.cleanSteps s.data)

/-- C5: canonicalizing `<?xml version="1.0"?><svg><rect/></svg>` yields a
single svg root whose opening tag carries the fixed width and height
attributes and the inline-block / vertical-middle style attribute, with
the XML prologue removed. -/
theorem c5_canonicalize_example :
    Core.cleanSvgContent "<?xml version=\"1.0\"?><svg><rect/></svg>" =
      "<svg width=\"30px\" height=\"30px\" style=\"display: inline-block; vertical-align: middle;\"><rect/></svg>" ∧
    containsSub "width=\"30px\"".data
      (Core.cleanSvgContent "<?xml version=\"1.0\"?><svg><rect/></svg>").data = true ∧
    containsSub "height=\"30px\"".data
      (Core.cleanSvgContent "<?xml version=\"1.0\"?><svg><rect/></svg>").data = true ∧
    containsSub "style=\"display: inline-block; vertical-align: middle;\"".data
      (Core.cleanSvgContent "<?xml version=\"1.0\"?><svg><rect/></svg>").data = true ∧
    hasXmlDecl (Core.cleanSvgContent "<?xml version=\"1.0\"?><svg><rect/></svg>") = false := by
  decide

/-- C6: the name normalizer lowercases its input before applying the
camelCase-boundary rewrite `([a-z])([A-Z]) → $1-$2`, so no uppercase
letter remains when the rewrite runs and `AddLocation` normalizes to
`addlocation`, not the claimed `add-location`.  This theorem evaluates the
code at the failing input. -/
theorem c6_processIconName_bug :
    processIconName "AddLocation" = "addlocation" ∧
      processIconName "AddLocation" ≠ "add-location" := by decide

/-- C10: the dedup key is the string `source + "-" + name`, so the
distinct pairs `("A-B", "C")` and `("A", "B-C")` share a key and
deduplicating a list containing both keeps only one record. -/
theorem c10_dedup_key_collision :
    iconKey collideA = iconKey collideB ∧
      ¬(collideA.source = collideB.source ∧ collideA.name = collideB.name) ∧
      (dedupe iconKey [collideA, collideB]).length = 1 := by decide

end IconMcp

namespace IconMcp

/-! ## C1: the resolution pipeline always yields a record -/

/-- C1: `generateIcon` is total (each awaited call carries its own error
handling, so the embedding is a plain function — the pipeline never
throws) and returns at least one record for every environment and every
argument combination; in particular with no credentials and no library or
Iconify match the stock stage supplies the record. -/
theorem nonEmptyOr_min_length (a b : List IconRecord) (h : 1 ≤ b.length) :
    1 ≤ (Core.nonEmptyOr a b).length := by
  unfold Core.nonEmptyOr
  split
  · exact h
  · next hne => exact List.length_pos.mpr hne

theorem c1_generate_icon_nonempty (env : Env) (description pfx : String)
    (model name : Option String) :
    1 ≤ (Core.generateIcon env description pfx model name).length := by
  unfold Core.generateIcon
  exact nonEmptyOr_min_length _ _ (nonEmptyOr_min_length _ _
    (nonEmptyOr_min_length _ _ (by simp)))

/-! ## C7: properties of the Map-based deduplication -/

theorem dedupInsert_keys {α : Type} (k : String) (v : α) (m : List (String × α)) :
    (dedupInsert k v m).map Prod.fst =
      if k ∈ m.map Prod.fst then m.map Prod.fst else m.map Prod.fst ++ [k] := by
  induction m with
  | nil => simp [dedupInsert]
  | cons p rest ih =>
    obtain ⟨k', v'⟩ := p
    by_cases hk : k' = k
    · subst hk
      simp [dedupInsert]
    · simp only [dedupInsert, if_neg hk, List.map_cons, ih]
      have hne : ¬ k = k' := fun hkk => hk hkk.symm
      by_cases hmem : k ∈ rest.map Prod.fst
      · simp [hmem, hne]
      · simp [hmem, hne]

theorem dedupInsert_length {α : Type} (k : String) (v : α) (m : List (String × α)) :
    (dedupInsert k v m).length ≤ m.length + 1 := by
  induction m with
  | nil => simp [dedupInsert]
  | cons p rest ih =>
    obtain ⟨k', v'⟩ := p
    unfold dedupInsert
    split <;> simp <;> omega

theorem dedupInsert_nodup {α : Type} (k : String) (v : α) (m : List (String × α))
    (h : (m.map Prod.fst).Nodup) : ((dedupInsert k v m).map Prod.fst).Nodup := by
  rw [dedupInsert_keys]
  split
  · exact h
  · next hmem => simp [List.nodup_append, h, hmem]

theorem dedupInsert_paired {α : Type} (key : α → String) (k : String) (v : α)
    (m : List (String × α)) (hv : key v = k) (h : ∀ p ∈ m, key p.2 = p.1) :
    ∀ p ∈ dedupInsert k v m, key p.2 = p.1 := by
  induction m with
  | nil => simp [dedupInsert, hv]
  | cons q rest ih =>
    obtain ⟨k', v'⟩ := q
    unfold dedupInsert
    split
    · next heq =>
      intro p hp
      rcases List.mem_cons.mp hp with hp1 | hp2
      · subst hp1; simpa [heq] using hv
      · exact h p (List.mem_cons_of_mem _ hp2)
    · intro p hp
      rcases List.mem_cons.mp hp with hp1 | hp2
      · subst hp1; exact h _ (List.mem_cons_self _ _)
      · exact ih (fun q hq => h q (List.mem_cons_of_mem _ hq)) p hp2

theorem dedupeFold_keys {α : Type} (key : α → String) (l : List α)
    (m : List (String × α)) :
    (dedupeFold key l m).map Prod.fst =
      l.foldl (fun acc x => if key x ∈ acc then acc else acc ++ [key x])
        (m.map Prod.fst) := by
  induction l generalizing m with
  | nil => rfl
  | cons x rest ih =>
    simp only [dedupeFold, List.foldl_cons]
    rw [show (rest.foldl (fun acc y => dedupInsert (key y) y acc)
        (dedupInsert (key x) x m)) = dedupeFold key rest (dedupInsert (key x) x m) from rfl,
      ih, dedupInsert_keys]

theorem dedupeFold_nodup {α : Type} (key : α → String) (l : List α)
    (m : List (String × α)) (h : (m.map Prod.fst).Nodup) :
    ((dedupeFold key l m).map Prod.fst).Nodup := by
  induction l generalizing m with
  | nil => exact h
  | cons x rest ih => exact ih _ (dedupInsert_nodup _ _ _ h)

theorem dedupeFold_length {α : Type} (key : α → String) (l : List α)
    (m : List (String × α)) :
    (dedupeFold key l m).length ≤ m.length + l.length := by
  induction l generalizing m with
  | nil => simp [dedupeFold]
  | cons x rest ih =>
    calc (dedupeFold key (x :: rest) m).length
        = (dedupeFold key rest (dedupInsert (key x) x m)).length := rfl
      _ ≤ (dedupInsert (key x) x m).length + rest.length := ih _
      _ ≤ (m.length + 1) + rest.length :=
          Nat.add_le_add_right (dedupInsert_length _ _ _) _
      _ = m.length + (x :: rest).length := by simp [Nat.add_assoc, Nat.add_comm 1]

theorem dedupeFold_paired {α : Type} (key : α → String) (l : List α)
    (m : List (String × α)) (h : ∀ p ∈ m, key p.2 = p.1) :
    ∀ p ∈ dedupeFold key l m, key p.2 = p.1 := by
  induction l generalizing m with
  | nil => exact h
  | cons x rest ih => exact ih _ (dedupInsert_paired key _ _ _ rfl h)

theorem dedupe_eq_fold {α : Type} (key : α → String) (l : List α) :
    dedupe key l = (dedupeFold key l []).map Prod.snd := rfl

/-- C7: deduplication never leaves two records sharing both `source` and
`name`, never lengthens the list, and lists the surviving records in the
order in which their `source-name` keys first occurred. -/
theorem c7_dedupe_properties (l : List IconRecord) :
    (dedupe iconKey l).Pairwise (fun a b => ¬(a.source = b.source ∧ a.name = b.name)) ∧
    (dedupe iconKey l).length ≤ l.length ∧
    (dedupe iconKey l).map iconKey = firstOccurrences (l.map iconKey) := by
  have hpair : ∀ p ∈ dedupeFold iconKey l [], iconKey p.2 = p.1 :=
    dedupeFold_paired iconKey l [] (by simp)
  have hkeys : (dedupe iconKey l).map iconKey =
      (dedupeFold iconKey l []).map Prod.fst := by
    rw [dedupe_eq_fold, List.map_map]
    exact List.map_congr_left hpair
  refine ⟨?_, ?_, ?_⟩
  · have hnd : ((dedupe iconKey l).map iconKey).Nodup := by
      rw [hkeys]; exact dedupeFold_nodup iconKey l [] (by simp)
    have hpw := (List.pairwise_map.mp hnd)
    exact hpw.imp (fun {a b} hne hab => hne (by
      unfold iconKey
      rw [hab.1, hab.2]))
  · have h1 : (dedupe iconKey l).length = (dedupeFold iconKey l []).length := by
      rw [dedupe_eq_fold, List.length_map]
    have h2 := dedupeFold_length iconKey l []
    simp only [List.length_nil] at h2
    omega
  · rw [hkeys, dedupeFold_keys]
    simp only [firstOccurrences, List.foldl_map, List.map_nil]

/-! ## C8: the category pipeline returns exactly `count` records -/

theorem padIcons_length_aux (category pfx : String) (count : Nat) :
    ∀ n acc, count - acc.length ≤ n →
      (Core.padIcons category pfx count acc).length = max count acc.length := by
  intro n
  induction n with
  | zero =>
    intro acc h
    have hge : ¬ acc.length < count := by omega
    rw [Core.padIcons]
    simp only [if_neg hge]
    omega
  | succ n ih =>
    intro acc h
    by_cases hlt : acc.length < count
    · rw [Core.padIcons]
      simp only [if_pos hlt]
      rw [ih (acc ++ [Core.padIcon category pfx (acc.length + 1)]) (by simp; omega)]
      simp only [List.length_append, List.length_cons, List.length_nil]
      omega
    · rw [Core.padIcons]
      simp only [if_neg hlt]
      omega

theorem padIcons_length (category pfx : String) (count : Nat) (acc : List IconRecord) :
    (Core.padIcons category pfx count acc).length = max count acc.length :=
  padIcons_length_aux category pfx count (count - acc.length) acc le_rfl

theorem catLoop_length_le (env : Env) (category pfx : String) (model : Option String)
    (count : Nat) :
    ∀ (kws : List String) (acc : List IconRecord), acc.length < count →
      (Core.catLoop env category pfx model count kws acc).length ≤ count := by
  intro kws
  induction kws with
  | nil => intro acc h; unfold Core.catLoop; omega
  | cons k rest ih =>
    intro acc h
    unfold Core.catLoop
    dsimp only
    cases hgen : Core.generateIcon env (category ++ "图标：" ++ k) pfx model (some k) with
    | nil =>
      dsimp only
      split
      · omega
      · exact ih acc h
    | cons g gs =>
      dsimp only
      split
      · next hstop =>
        simp only [List.length_append, List.length_cons, List.length_nil] at hstop ⊢
        omega
      · next hgo =>
        apply ih
        simp only [List.length_append, List.length_cons, List.length_nil] at hgo ⊢
        omega

/-- C8: for every target `count ≥ 1` the category expansion returns
exactly `count` records — the keyword loop contributes at most `count`
and the stock-padding loop fills up to exactly `count`. -/
theorem c8_category_count (env : Env) (category pfx : String) (model : Option String)
    (count : Nat) (h : 1 ≤ count) :
    (Core.generateIconsByCategory env category count pfx model).length = count := by
  unfold Core.generateIconsByCategory
  dsimp only
  rw [padIcons_length]
  exact Nat.max_eq_left
    (catLoop_length_le env category pfx model count
      (Core.generateIconKeywords env category count) [] (by simpa using h))

/-- Witness for C8 at a concrete environment and count. -/
theorem c8_category_count_witness :
    1 ≤ 2 ∧ (Core.generateIconsByCategory envEmpty "office" 2 "default" none).length = 2 :=
  ⟨by decide, c8_category_count envEmpty "office" "default" none 2 (by decide)⟩

/-! ## C9: provider selection -/

theorem find?_eq_filter_head? {α : Type} (p : α → Bool) (l : List α) :
    l.find? p = (l.filter p).head? := by
  induction l with
  | nil => rfl
  | cons a rest ih =>
    by_cases h : p a
    · rw [List.find?_cons_of_pos _ h, List.filter_cons_of_pos h, List.head?_cons]
    · rw [List.find?_cons_of_neg _ h, List.filter_cons_of_neg h, ih]

/-- C9: with no explicit model, `selectAvailableModel` returns the first
entry of the fixed priority list whose credential check passes (`none`
when no credential is configured); `generateSVGCode` invokes exactly the
selected adapter — no adapter at all when no credential is present — and
in that case its result comes only from the library fallback. -/
theorem c9_provider_selection (env : Env) (description style : String) :
    Core.selectAvailableModel env =
      (Core.modelPriority.filter (Core.hasApiKeyForModel env)).head? ∧
    (Core.generateSVGCodeT env description style none).2 =
      (Core.selectAvailableModel env).toList ∧
    (Core.generateSVGCodeT env description style none).1 =
      (match Core.selectAvailableModel env with
       | some m =>
         if m = "tongyi" then env.tongyi (buildSVGPrompt description style)
         else env.doubao (buildSVGPrompt description style)
       | none =>
         match Core.searchIconFromLibrary env description style with
         | some svg => if svg ≠ "" then some svg else none
         | none => none) := by
  refine ⟨find?_eq_filter_head? _ _, ?_, ?_⟩ <;>
    cases ht : env.hasTongyiKey <;> cases hd : env.hasDoubaoKey <;>
    simp [Core.selectAvailableModel, Core.modelPriority, Core.hasApiKeyForModel,
      Core.generateSVGCodeT, ht, hd, List.find?] <;>
    cases hs : Core.searchIconFromLibrary env description style <;>
    simp [hs] <;> split <;> simp

end IconMcp

namespace IconMcp

theorem char_le_iff_toNat {a b : Char} : a ≤ b ↔ a.toNat ≤ b.toNat := by
  rw [Char.le_def, UInt32.le_def, BitVec.le_def]
  rfl

theorem toNat_ofNat_valid {n : Nat} (h : n < 55296) : (Char.ofNat n).toNat = n := by
  rw [Char.ofNat, dif_pos (Or.inl h)]
  rfl

theorem asciiToUpper_goodChar {c : Char} (h : goodChar c = true) :
    goodChar (asciiToUpper c) = true := by
  unfold asciiToUpper
  split
  · next hlow =>
    have h1 : 97 ≤ c.toNat := by
      have := (Bool.and_eq_true _ _).mp hlow |>.1
      simpa [isAsciiLower, char_le_iff_toNat] using
        char_le_iff_toNat.mp (of_decide_eq_true this)
    have h2 : c.toNat ≤ 122 := by
      have := (Bool.and_eq_true _ _).mp hlow |>.2
      exact char_le_iff_toNat.mp (of_decide_eq_true this)
    have hv : c.toNat - 32 < 55296 := by omega
    have ht := toNat_ofNat_valid hv
    unfold goodChar isAsciiUpper
    have hA : 'A' ≤ Char.ofNat (c.toNat - 32) := by
      rw [char_le_iff_toNat, ht]
      show 65 ≤ c.toNat - 32
      omega
    have hZ : Char.ofNat (c.toNat - 32) ≤ 'Z' := by
      rw [char_le_iff_toNat, ht]
      show c.toNat - 32 ≤ 90
      omega
    simp [hA, hZ]
  · exact h

end IconMcp

namespace IconMcp

theorem goodChar_not_special {c : Char} (h : goodChar c = true) :
    c ≠ '\\' ∧ c ≠ '?' ∧ c ≠ '!' ∧ c ≠ '>' ∧ c ≠ '<' := by
  refine ⟨?_, ?_, ?_, ?_, ?_⟩ <;> intro heq <;> rw [heq] at h <;> exact absurd h (by decide)

theorem wordsGo_chars {c : Char} :
    ∀ (fuel : Nat) (l : List Char) (w : List Char), w ∈ wordsGo fuel l → c ∈ w →
      c ∈ l ∧ jsWs c = false := by
  intro fuel
  induction fuel with
  | zero => intro l w hw; cases l <;> simp [wordsGo] at hw
  | succ fuel ih =>
    intro l w hw hc
    cases l with
    | nil => simp [wordsGo] at hw
    | cons a rest =>
      unfold wordsGo at hw
      split at hw
      · obtain ⟨h1, h2⟩ := ih rest w hw hc
        exact ⟨List.mem_cons_of_mem _ h1, h2⟩
      · rcases List.mem_cons.mp hw with hw1 | hw2
        · subst hw1
          have hp := List.mem_takeWhile_imp hc
          simp at hp
          exact ⟨(List.takeWhile_sublist _).mem hc, hp⟩
        · obtain ⟨h1, h2⟩ := ih _ w hw2 hc
          exact ⟨(List.dropWhile_sublist _).mem h1, h2⟩

theorem upFirst_chars {c : Char} {w : List Char} (hw : ∀ x ∈ w, goodChar x = true)
    (hc : c ∈ upFirst w) : goodChar c = true := by
  cases w with
  | nil => simp [upFirst] at hc
  | cons a rest =>
    unfold upFirst at hc
    rcases List.mem_cons.mp hc with h1 | h2
    · subst h1
      exact asciiToUpper_goodChar (hw a (List.mem_cons_self _ _))
    · exact hw c (List.mem_cons_of_mem _ h2)

theorem generateIconName_chars (d : String) :
    ∀ c ∈ (generateIconName d).data, goodChar c = true := by
  intro c hc
  unfold generateIconName at hc
  have hword : ∀ w ∈ (wordsOf ((d.data.map asciiToLower).filter keepNameChar)).take 3,
      ∀ x ∈ w, goodChar x = true := by
    intro w hw x hx
    have hw' := (List.take_sublist 3 _).subset hw
    obtain ⟨h1, h2⟩ := wordsGo_chars _ _ w hw' hx
    have hk := List.of_mem_filter h1
    unfold keepNameChar at hk
    unfold goodChar
    simp only [Bool.or_eq_true] at hk ⊢
    rcases hk with (hk1 | hk2) | hk3
    · exact Or.inl (Or.inr hk1)
    · exact Or.inr hk2
    · rw [hk3] at h2; exact absurd h2 (by simp)
  dsimp only at hc
  cases hW : List.take 3 (wordsOf ((d.data.map asciiToLower).filter keepNameChar)) with
  | nil =>
    rw [hW] at hc
    dsimp only at hc
    have hall : ∀ x ∈ ("GeneratedIcon" : String).data, goodChar x = true := by decide
    exact hall c hc
  | cons w ws =>
    rw [hW] at hc
    dsimp only at hc
    rw [hW] at hword
    rcases List.mem_append.mp hc with h1 | h2
    · exact hword w (List.mem_cons_self _ _) c h1
    · obtain ⟨u, hu, hcu⟩ := List.mem_flatten.mp h2
      obtain ⟨v, hv, hvu⟩ := List.mem_map.mp hu
      subst hvu
      exact upFirst_chars (hword v (List.mem_cons_of_mem _ hv)) hcu

end IconMcp

namespace IconMcp

theorem scanGo_cons_none {m : Matcher} {r : List Char} {c : Char} {rest : List Char}
    (h : m (c :: rest) = none) (fuel : Nat) :
    scanGo m r fuel (c :: rest) = c :: scanGo m r (fuel - 1) rest := by
  cases fuel with
  | zero =>
    cases rest <;> rfl
  | succ fuel =>
    have hf : fuel + 1 - 1 = fuel := rfl
    rw [hf]
    conv_lhs => unfold scanGo
    rw [h]

theorem scanGo_mem {m : Matcher} {r : List Char} {c : Char}
    (hsplit : ∀ l con rem, m l = some (con, rem) → l = con ++ rem)
    (hcon : ∀ l con rem, m l = some (con, rem) → c ∉ con) :
    ∀ (fuel : Nat) (l : List Char), c ∈ l → c ∈ scanGo m r fuel l := by
  intro fuel
  induction fuel with
  | zero =>
    intro l hc
    cases l with
    | nil => exact absurd hc (by simp)
    | cons a rest => exact hc
  | succ fuel ih =>
    intro l hc
    cases l with
    | nil => exact absurd hc (by simp)
    | cons a rest =>
      unfold scanGo
      cases hm : m (a :: rest) with
      | some p =>
        obtain ⟨con, rem⟩ := p
        have heq := hsplit _ _ _ hm
        have hnc := hcon _ _ _ hm
        have : c ∈ rem := by
          rcases List.mem_append.mp (heq ▸ hc) with h1 | h2
          · exact absurd h1 hnc
          · exact h2
        exact List.mem_append.mpr (Or.inr (ih rem this))
      | none =>
        rcases List.mem_cons.mp hc with h1 | h2
        · exact h1 ▸ List.mem_cons_self _ _
        · exact List.mem_cons_of_mem _ (ih rest h2)

theorem scanGo_subset {m : Matcher} {r : List Char} {a : Char}
    (hsplit : ∀ l con rem, m l = some (con, rem) → l = con ++ rem) :
    ∀ (fuel : Nat) (l : List Char), a ∈ scanGo m r fuel l → a ∈ l ∨ a ∈ r := by
  intro fuel
  induction fuel with
  | zero =>
    intro l ha
    cases l with
    | nil => exact absurd ha (by simp [scanGo])
    | cons x rest => exact Or.inl ha
  | succ fuel ih =>
    intro l ha
    cases l with
    | nil => exact absurd ha (by simp [scanGo])
    | cons x rest =>
      unfold scanGo at ha
      cases hm : m (x :: rest) with
      | some p =>
        obtain ⟨con, rem⟩ := p
        rw [hm] at ha
        rcases List.mem_append.mp ha with h1 | h2
        · exact Or.inr h1
        · rcases ih rem h2 with h3 | h4
          · exact Or.inl ((hsplit _ _ _ hm) ▸ List.mem_append.mpr (Or.inr h3))
          · exact Or.inr h4
      | none =>
        rw [hm] at ha
        rcases List.mem_cons.mp ha with h1 | h2
        · exact Or.inl (h1 ▸ List.mem_cons_self _ _)
        · rcases ih rest h2 with h3 | h4
          · exact Or.inl (List.mem_cons_of_mem _ h3)
          · exact Or.inr h4

end IconMcp


namespace IconMcp

theorem xmlTail_split (u : List Char) :
    ∀ con rem, xmlTail u = some (con, rem) → u = con ++ rem := by
  induction u with
  | nil => intro con rem h; simp [xmlTail] at h
  | cons c rest ih =>
    intro con rem h
    unfold xmlTail at h
    by_cases h1 : c = '?' ∧ rest.head? = some '>'
    · rw [if_pos (by simp [h1.1, h1.2])] at h
      simp only [Option.some.injEq, Prod.mk.injEq] at h
      rw [← h.1, ← h.2, h1.1]
      cases rest with
      | nil => simp at h1
      | cons b r =>
        have hb : b = '>' := by simpa using h1.2
        simp [hb]
    · rw [if_neg (by simpa using fun hc hh => h1 ⟨hc, by simpa using hh⟩)] at h
      by_cases h2 : c = '>'
      · rw [if_pos h2] at h; simp at h
      · rw [if_neg h2] at h
        cases hx : xmlTail rest with
        | none => rw [hx] at h; simp at h
        | some p =>
          obtain ⟨con', rem'⟩ := p
          rw [hx] at h
          simp only [Option.some.injEq, Prod.mk.injEq] at h
          rw [← h.1, ← h.2]
          simp [ih con' rem' hx]

theorem gtTail_split (u : List Char) :
    ∀ con rem, gtTail u = some (con, rem) →
      ∃ cap, con = cap ++ ['>'] ∧ '>' ∉ cap ∧ u = cap ++ '>' :: rem := by
  induction u with
  | nil => intro con rem h; simp [gtTail] at h
  | cons c rest ih =>
    intro con rem h
    unfold gtTail at h
    by_cases h2 : c = '>'
    · rw [if_pos h2] at h
      simp only [Option.some.injEq, Prod.mk.injEq] at h
      exact ⟨[], by simp [← h.1], by simp, by simp [h2, ← h.2]⟩
    · rw [if_neg h2] at h
      cases hx : gtTail rest with
      | none => rw [hx] at h; simp at h
      | some p =>
        obtain ⟨con', rem'⟩ := p
        rw [hx] at h
        simp only [Option.some.injEq, Prod.mk.injEq] at h
        obtain ⟨cap', hc1, hc2, hc3⟩ := ih con' rem' hx
        refine ⟨c :: cap', ?_, ?_, ?_⟩
        · rw [← h.1, hc1]; rfl
        · simp only [List.mem_cons, not_or]
          exact ⟨fun hcc => h2 hcc.symm, hc2⟩
        · rw [← h.2, hc3]; rfl

theorem gtTail_isSome_of_mem {u : List Char} (h : '>' ∈ u) : (gtTail u).isSome = true := by
  induction u with
  | nil => exact absurd h (by simp)
  | cons c rest ih =>
    unfold gtTail
    by_cases h2 : c = '>'
    · rw [if_pos h2]; rfl
    · rw [if_neg h2]
      have hr : '>' ∈ rest := by
        rcases List.mem_cons.mp h with h3 | h4
        · exact absurd h3.symm h2
        · exact h4
      cases hx : gtTail rest with
      | none => rw [hx] at ih; exact absurd (ih hr) (by simp)
      | some p => rfl

theorem matchEscQ_split : ∀ l con rem, matchEscQ l = some (con, rem) → l = con ++ rem := by
  intro l con rem h
  match l with
  | [] => simp [matchEscQ] at h
  | [c] => simp [matchEscQ] at h
  | c1 :: c2 :: rest =>
    unfold matchEscQ at h
    dsimp only at h
    by_cases hc : (c1 = '\\' && c2 = '"') = true
    · rw [if_pos hc] at h
      simp only [Bool.and_eq_true, decide_eq_true_eq] at hc
      simp only [Option.some.injEq, Prod.mk.injEq] at h
      rw [← h.1, ← h.2, hc.1, hc.2]
      rfl
    · rw [if_neg hc] at h
      exact absurd h (by simp)

theorem matchEscA_split : ∀ l con rem, matchEscA l = some (con, rem) → l = con ++ rem := by
  intro l con rem h
  match l with
  | [] => simp [matchEscA] at h
  | [c] => simp [matchEscA] at h
  | c1 :: c2 :: rest =>
    unfold matchEscA at h
    dsimp only at h
    by_cases hc : (c1 = '\\' && c2 = '\'') = true
    · rw [if_pos hc] at h
      simp only [Bool.and_eq_true, decide_eq_true_eq] at hc
      simp only [Option.some.injEq, Prod.mk.injEq] at h
      rw [← h.1, ← h.2, hc.1, hc.2]
      rfl
    · rw [if_neg hc] at h
      exact absurd h (by simp)

theorem matchXmlDecl_split : ∀ l con rem, matchXmlDecl l = some (con, rem) → l = con ++ rem := by
  intro l con rem h
  unfold matchXmlDecl at h
  split at h
  · next hp =>
    cases hx : xmlTail (l.drop 5) with
    | none => rw [hx] at h; simp at h
    | some p =>
      obtain ⟨con', rem'⟩ := p
      rw [hx] at h
      simp only [Option.some.injEq, Prod.mk.injEq] at h
      obtain ⟨t, ht⟩ := List.isPrefixOf_iff_prefix.mp hp
      have hdrop : l.drop 5 = t := by rw [← ht]; rfl
      have hsp := xmlTail_split (l.drop 5) con' rem' hx
      rw [hdrop] at hsp
      rw [← h.1, ← h.2, ← ht, List.append_assoc, ← hsp]
  · simp at h

theorem matchDoctype_split : ∀ l con rem, matchDoctype l = some (con, rem) → l = con ++ rem := by
  intro l con rem h
  unfold matchDoctype at h
  split at h
  · next hp =>
    cases hx : gtTail (l.drop 9) with
    | none => rw [hx] at h; simp at h
    | some p =>
      obtain ⟨con', rem'⟩ := p
      rw [hx] at h
      simp only [Option.some.injEq, Prod.mk.injEq] at h
      obtain ⟨t, ht⟩ := List.isPrefixOf_iff_prefix.mp hp
      have hdrop : l.drop 9 = t := by rw [← ht]; rfl
      obtain ⟨cap, hc1, _, hc3⟩ := gtTail_split (l.drop 9) con' rem' hx
      rw [hdrop] at hc3
      have hlit : ("<!DOCTYPE".data : List Char) = ['<', '!', 'D', 'O', 'C', 'T', 'Y', 'P', 'E'] := rfl
      rw [← h.1, ← h.2, ← ht, hc3, hc1, hlit]
      simp
  · exact Option.noConfusion h

theorem quoteSplit_eq (t : List Char) : t = (quoteSplit t).1 ++ (quoteSplit t).2 := by
  unfold quoteSplit
  match t with
  | [] => rfl
  | c :: r =>
    dsimp only
    split <;> rfl

theorem matchAttr_split (key : List Char) :
    ∀ l con rem, matchAttr key l = some (con, rem) → l = con ++ rem := by
  intro l con rem h
  unfold matchAttr at h
  split at h
  · next hp =>
    dsimp only at h
    split at h
    · exact absurd h (by simp)
    · simp only [Option.some.injEq, Prod.mk.injEq] at h
      obtain ⟨t, ht⟩ := List.isPrefixOf_iff_prefix.mp hp
      have hdrop : l.drop key.length = t := by rw [← ht, List.drop_left]
      rw [hdrop] at h
      rw [← h.1, ← h.2, ← ht]
      simp only [List.append_assoc]
      congr 1
      conv_lhs => rw [quoteSplit_eq t]
      congr 1
      conv_lhs => rw [← List.takeWhile_append_dropWhile (p := isVal) (l := (quoteSplit t).2)]
      congr 1
      conv_lhs => rw [quoteSplit_eq ((quoteSplit t).2.dropWhile isVal)]
      congr 1
      exact (List.takeWhile_append_dropWhile _ _).symm
  · simp at h

end IconMcp

namespace IconMcp

theorem noMatches_escQ {l : List Char} (h : '\\' ∉ l) : noMatches matchEscQ l = true := by
  induction l with
  | nil => rfl
  | cons c rest ih =>
    unfold noMatches
    have hc : c ≠ '\\' := fun hcc => h (hcc ▸ List.mem_cons_self _ _)
    have hm : matchEscQ (c :: rest) = none := by
      cases rest with
      | nil => rfl
      | cons b r =>
        unfold matchEscQ
        dsimp only
        rw [if_neg (by simp [hc])]
    rw [hm]
    simp only [Option.isNone_none, Bool.true_and]
    exact ih (fun hr => h (List.mem_cons_of_mem _ hr))

theorem noMatches_escA {l : List Char} (h : '\\' ∉ l) : noMatches matchEscA l = true := by
  induction l with
  | nil => rfl
  | cons c rest ih =>
    unfold noMatches
    have hc : c ≠ '\\' := fun hcc => h (hcc ▸ List.mem_cons_self _ _)
    have hm : matchEscA (c :: rest) = none := by
      cases rest with
      | nil => rfl
      | cons b r =>
        unfold matchEscA
        dsimp only
        rw [if_neg (by simp [hc])]
    rw [hm]
    simp only [Option.isNone_none, Bool.true_and]
    exact ih (fun hr => h (List.mem_cons_of_mem _ hr))

theorem matchXmlDecl_none_of_no_qm {l : List Char} (h : '?' ∉ l) : matchXmlDecl l = none := by
  unfold matchXmlDecl
  split
  · next hp =>
    have := (List.isPrefixOf_iff_prefix.mp hp).subset
    exact absurd (this (by simp)) h
  · rfl

theorem noMatches_xml {l : List Char} (h : '?' ∉ l) : noMatches matchXmlDecl l = true := by
  induction l with
  | nil => rfl
  | cons c rest ih =>
    unfold noMatches
    rw [matchXmlDecl_none_of_no_qm h]
    simp only [Option.isNone_none, Bool.true_and]
    exact ih (fun hr => h (List.mem_cons_of_mem _ hr))

theorem matchDoctype_none_of_no_bang {l : List Char} (h : '!' ∉ l) : matchDoctype l = none := by
  unfold matchDoctype
  split
  · next hp =>
    have := (List.isPrefixOf_iff_prefix.mp hp).subset
    exact absurd (this (by simp)) h
  · rfl

theorem noMatches_doctype {l : List Char} (h : '!' ∉ l) : noMatches matchDoctype l = true := by
  induction l with
  | nil => rfl
  | cons c rest ih =>
    unfold noMatches
    rw [matchDoctype_none_of_no_bang h]
    simp only [Option.isNone_none, Bool.true_and]
    exact ih (fun hr => h (List.mem_cons_of_mem _ hr))

theorem quoteSplit_fst_quote (t : List Char) (c : Char) (h : c ∈ (quoteSplit t).1) :
    isQuote c = true := by
  unfold quoteSplit at h
  match t with
  | [] => simp at h
  | b :: r =>
    dsimp only at h
    split at h
    · next hq =>
      have : c = b := by simpa using h
      exact this ▸ hq
    · simp at h

theorem matchAttr_none_of_head {k0 : Char} {krest : List Char} {c : Char} {rest : List Char}
    (hk : c ≠ k0) : matchAttr (k0 :: krest) (c :: rest) = none := by
  unfold matchAttr
  split
  · next hp =>
    exfalso
    obtain ⟨t, ht⟩ := List.isPrefixOf_iff_prefix.mp hp
    have : k0 = c := by
      have := congrArg List.head? ht
      simpa using this
    exact hk this.symm
  · rfl

theorem matchAttr_con_no_gt (key : List Char) (hkey : '>' ∉ key) :
    ∀ l con rem, matchAttr key l = some (con, rem) → '>' ∉ con := by
  intro l con rem h
  unfold matchAttr at h
  split at h
  · dsimp only at h
    split at h
    · exact absurd h (by simp)
    · simp only [Option.some.injEq, Prod.mk.injEq] at h
      rw [← h.1]
      intro hmem
      simp only [List.append_assoc, List.mem_append] at hmem
      rcases hmem with h1 | h2 | h3 | h4 | h5
      · exact hkey h1
      · exact absurd (quoteSplit_fst_quote _ _ h2) (by decide)
      · exact absurd (List.mem_takeWhile_imp h3) (by decide)
      · exact absurd (quoteSplit_fst_quote _ _ h4) (by decide)
      · exact absurd (List.mem_takeWhile_imp h5) (by decide)
  · exact Option.noConfusion h

end IconMcp

namespace IconMcp

theorem findSvgTag_eq :
    ∀ (l pre cap post : List Char), findSvgTag l = some (pre, cap, post) →
      l = pre ++ ['<', 's', 'v', 'g'] ++ cap ++ '>' :: post := by
  intro l
  induction l with
  | nil => intro pre cap post h; simp [findSvgTag] at h
  | cons c rest ih =>
    intro pre cap post h
    unfold findSvgTag at h
    split at h
    · next hp =>
      cases hx : gtTail ((c :: rest).drop 4) with
      | none => rw [hx] at h; exact Option.noConfusion h
      | some p =>
        obtain ⟨con', rem'⟩ := p
        rw [hx] at h
        simp only [Option.some.injEq, Prod.mk.injEq] at h
        obtain ⟨t, ht⟩ := List.isPrefixOf_iff_prefix.mp hp
        have hdrop : (c :: rest).drop 4 = t := by rw [← ht]; rfl
        obtain ⟨cap', hc1, hc2, hc3⟩ := gtTail_split _ con' rem' hx
        rw [hdrop] at hc3
        have hcap : con'.dropLast = cap' := by rw [hc1]; simp
        rw [← h.1, ← h.2.1, ← h.2.2, ← ht, hcap, hc3]
        rfl
    · cases hf : findSvgTag rest with
      | none => rw [hf] at h; exact Option.noConfusion h
      | some p =>
        obtain ⟨pre', cap', post'⟩ := p
        rw [hf] at h
        simp only [Option.some.injEq, Prod.mk.injEq] at h
        rw [← h.1, ← h.2.1, ← h.2.2]
        have := ih pre' cap' post' hf
        rw [show (c :: pre') ++ ['<', 's', 'v', 'g'] ++ cap' ++ '>' :: post'
            = c :: (pre' ++ ['<', 's', 'v', 'g'] ++ cap' ++ '>' :: post') by simp]
        rw [← this]

theorem injectSvg_mem {e l : List Char} {a : Char} (h : a ∈ l) : a ∈ injectSvg e l := by
  unfold injectSvg
  cases hf : findSvgTag l with
  | none => exact h
  | some p =>
    obtain ⟨pre, cap, post⟩ := p
    have heq := findSvgTag_eq l pre cap post hf
    rw [heq] at h
    simp only [List.append_assoc, List.mem_append, List.mem_cons] at h ⊢
    tauto

theorem injectSvg_subset {e l : List Char} {a : Char} (h : a ∈ injectSvg e l) :
    a ∈ l ∨ a ∈ e := by
  unfold injectSvg at h
  cases hf : findSvgTag l with
  | none => rw [hf] at h; exact Or.inl h
  | some p =>
    obtain ⟨pre, cap, post⟩ := p
    rw [hf] at h
    have heq := findSvgTag_eq l pre cap post hf
    rw [heq]
    simp only [List.append_assoc, List.mem_append, List.mem_cons] at h ⊢
    tauto

theorem injectSvg_fires {e rest : List Char} (hr : '>' ∈ rest) (a : Char) (ha : a ∈ e) :
    a ∈ injectSvg e ('<' :: 's' :: 'v' :: 'g' :: rest) := by
  unfold injectSvg
  cases hf : findSvgTag ('<' :: 's' :: 'v' :: 'g' :: rest) with
  | none =>
    exfalso
    unfold findSvgTag at hf
    rw [if_pos (show (['<', 's', 'v', 'g'].isPrefixOf ('<' :: 's' :: 'v' :: 'g' :: rest)) = true by
      simp [List.isPrefixOf])] at hf
    cases hx : gtTail (('<' :: 's' :: 'v' :: 'g' :: rest).drop 4) with
    | none =>
      have : '>' ∈ ('<' :: 's' :: 'v' :: 'g' :: rest).drop 4 := by simpa using hr
      have := gtTail_isSome_of_mem this
      rw [hx] at this
      simp at this
    | some p => rw [hx] at hf; exact Option.noConfusion hf
  | some p =>
    obtain ⟨pre, cap, post⟩ := p
    simp only [List.append_assoc, List.mem_append, List.mem_cons]
    tauto

theorem mem_dropWhile_of_not {p : Char → Bool} {c : Char} {l : List Char}
    (h : c ∈ l) (hp : p c = false) : c ∈ l.dropWhile p := by
  induction l with
  | nil => exact absurd h (by simp)
  | cons a rest ih =>
    rw [List.dropWhile_cons]
    split
    · next ha =>
      rcases List.mem_cons.mp h with h1 | h2
      · rw [h1] at hp; rw [hp] at ha; exact absurd ha (by simp)
      · exact ih h2
    · exact h

theorem mem_jsTrim_of_not_ws {c : Char} {l : List Char} (h : c ∈ l)
    (hw : jsWs c = false) : c ∈ jsTrim l := by
  unfold jsTrim trimLeft trimRight
  apply List.mem_reverse.mpr
  apply mem_dropWhile_of_not _ hw
  apply List.mem_reverse.mpr
  exact mem_dropWhile_of_not h hw

theorem jsTrim_eq_self {l : List Char} (hh : ∀ c ∈ l.head?, jsWs c = false)
    (hl : ∀ c ∈ l.getLast?, jsWs c = false) : jsTrim l = l := by
  unfold jsTrim trimLeft trimRight
  have h1 : l.dropWhile jsWs = l := by
    cases l with
    | nil => rfl
    | cons a rest =>
      rw [List.dropWhile_cons, if_neg]
      rw [hh a rfl]
      simp
  rw [h1]
  cases hle : l.getLast? with
  | none =>
    have : l = [] := by
      cases l with
      | nil => rfl
      | cons a rest => simp [List.getLast?_eq_getLast] at hle
    rw [this]; rfl
  | some d =>
    have hd := hl d hle
    have hrev : l.reverse.head? = some d := by
      rw [List.head?_reverse]; exact hle
    have h2 : l.reverse.dropWhile jsWs = l.reverse := by
      cases hr : l.reverse with
      | nil => rfl
      | cons a rest =>
        rw [List.dropWhile_cons, if_neg]
        rw [hr] at hrev
        simp only [List.head?_cons, Option.some.injEq] at hrev
        rw [hrev, hd]
        simp
    rw [h2, List.reverse_reverse]

end IconMcp

namespace IconMcp

theorem matchWidth_none_head {c : Char} {xs : List Char} (h : c ≠ 'w') :
    matchWidth (c :: xs) = none := by
  unfold matchWidth
  rw [show ("width=".data : List Char) = 'w' :: ['i', 'd', 't', 'h', '='] from rfl]
  exact matchAttr_none_of_head h

theorem matchHeight_none_head {c : Char} {xs : List Char} (h : c ≠ 'h') :
    matchHeight (c :: xs) = none := by
  unfold matchHeight
  rw [show ("height=".data : List Char) = 'h' :: ['e', 'i', 'g', 'h', 't', '='] from rfl]
  exact matchAttr_none_of_head h

theorem styleStep_mem {u : List Char} {a : Char} (h : a ∈ u) : a ∈ Core.styleStep u := by
  unfold Core.styleStep
  split
  · exact h
  · exact injectSvg_mem h

theorem styleStep_subset {u : List Char} {a : Char} (h : a ∈ Core.styleStep u) :
    a ∈ u ∨ a ∈ attrStyle := by
  unfold Core.styleStep at h
  split at h
  · exact Or.inl h
  · exact injectSvg_subset h

theorem cleanSteps_eq (l : List Char) :
    Core.cleanSteps l =
      jsTrim (scanReplace matchDoctype [] (Core.styleStep (injectSvg attrsWH
        (scanReplace matchHeight [] (scanReplace matchWidth []
          (jsTrim (scanReplace matchXmlDecl [] (scanReplace matchEscA ['\'']
            (scanReplace matchEscQ ['"'] l))))))))) := rfl

/-- A strip of an attribute pattern from a list with the `<svg` prefix
keeps the prefix: the matcher cannot fire on the first four characters. -/
theorem attrScan_shape {m : Matcher} {rest : List Char}
    (h1 : ∀ xs, m ('<' :: xs) = none) (h2 : ∀ xs, m ('s' :: xs) = none)
    (h3 : ∀ xs, m ('v' :: xs) = none) (h4 : ∀ xs, m ('g' :: xs) = none)
    {r : List Char} (fuel : Nat) :
    ∃ w, scanGo m r fuel ('<' :: 's' :: 'v' :: 'g' :: rest) = '<' :: 's' :: 'v' :: 'g' :: w := by
  rw [scanGo_cons_none (h1 _), scanGo_cons_none (h2 _), scanGo_cons_none (h3 _),
    scanGo_cons_none (h4 _)]
  exact ⟨_, rfl⟩

/-- The canonicalizer never empties a rule-template-shaped string: the
injected `width="30px"` attribute survives every later step. -/
theorem cleanList_good_ne_nil {t : List Char}
    (hbs : '\\' ∉ t) (hq : '?' ∉ t) (hex : '!' ∉ t)
    (hpre : ∃ rest, t = '<' :: 's' :: 'v' :: 'g' :: rest)
    (hgt : '>' ∈ t)
    (htrim : jsTrim t = t) :
    Core.cleanList t ≠ [] := by
  obtain ⟨rest, hrest⟩ := hpre
  have e1 : scanReplace matchEscQ ['"'] t = t := scanReplace_id (noMatches_escQ hbs)
  have e2 : scanReplace matchEscA ['\''] t = t := scanReplace_id (noMatches_escA hbs)
  have e3 : jsTrim (scanReplace matchXmlDecl [] t) = t := by
    rw [scanReplace_id (noMatches_xml hq), htrim]
  -- width strip
  obtain ⟨w4, hw4⟩ : ∃ w4, scanReplace matchWidth [] t = '<' :: 's' :: 'v' :: 'g' :: w4 := by
    rw [hrest]
    exact attrScan_shape (fun xs => matchWidth_none_head (by decide))
      (fun xs => matchWidth_none_head (by decide))
      (fun xs => matchWidth_none_head (by decide))
      (fun xs => matchWidth_none_head (by decide)) _
  have hgt4 : '>' ∈ scanReplace matchWidth [] t :=
    scanGo_mem (matchAttr_split _) (matchAttr_con_no_gt _ (by decide)) _ t hgt
  have hex4 : '!' ∉ scanReplace matchWidth [] t := by
    intro hmem
    rcases scanGo_subset (matchAttr_split _) _ t hmem with h | h
    · exact hex h
    · simp at h
  -- height strip
  obtain ⟨w5, hw5⟩ : ∃ w5, scanReplace matchHeight [] (scanReplace matchWidth [] t)
      = '<' :: 's' :: 'v' :: 'g' :: w5 := by
    rw [hw4]
    exact attrScan_shape (fun xs => matchHeight_none_head (by decide))
      (fun xs => matchHeight_none_head (by decide))
      (fun xs => matchHeight_none_head (by decide))
      (fun xs => matchHeight_none_head (by decide)) _
  have hgt5 : '>' ∈ scanReplace matchHeight [] (scanReplace matchWidth [] t) :=
    scanGo_mem (matchAttr_split _) (matchAttr_con_no_gt _ (by decide)) _ _ hgt4
  have hex5 : '!' ∉ scanReplace matchHeight [] (scanReplace matchWidth [] t) := by
    intro hmem
    rcases scanGo_subset (matchAttr_split _) _ _ hmem with h | h
    · exact hex4 h
    · simp at h
  have hgt5' : '>' ∈ w5 := by
    rw [hw5] at hgt5
    simp only [List.mem_cons] at hgt5
    rcases hgt5 with h | h | h | h | h3 <;> first | exact absurd h.symm (by decide) | exact h3
  -- width/height injection
  have hw6 : 'w' ∈ injectSvg attrsWH (scanReplace matchHeight [] (scanReplace matchWidth [] t)) := by
    rw [hw5]
    exact injectSvg_fires hgt5' 'w' (by decide)
  have hex6 : '!' ∉ injectSvg attrsWH (scanReplace matchHeight [] (scanReplace matchWidth [] t)) := by
    intro hmem
    rcases injectSvg_subset hmem with h | h
    · exact hex5 h
    · exact absurd h (by decide)
  -- style injection
  have hw7 : 'w' ∈ Core.styleStep (injectSvg attrsWH
      (scanReplace matchHeight [] (scanReplace matchWidth [] t))) := styleStep_mem hw6
  have hex7 : '!' ∉ Core.styleStep (injectSvg attrsWH
      (scanReplace matchHeight [] (scanReplace matchWidth [] t))) := by
    intro hmem
    rcases styleStep_subset hmem with h | h
    · exact hex6 h
    · exact absurd h (by decide)
  -- doctype strip is a no-op; `w` survives the final trims and filters
  have hw8 : 'w' ∈ Core.cleanSteps t := by
    rw [cleanSteps_eq, e1, e2, e3, scanReplace_id (noMatches_doctype hex7)]
    exact mem_jsTrim_of_not_ws hw7 (by decide)
  rw [cleanList_eq]
  apply List.ne_nil_of_mem
  apply mem_jsTrim_of_not_ws _ (show jsWs 'w' = false by decide)
  apply List.mem_filter.mpr
  refine ⟨List.mem_filter.mpr ⟨hw8, by decide⟩, by decide⟩

end IconMcp

namespace IconMcp

/-- The character-level facts about a rule template needed by
`cleanList_good_ne_nil`, derived from facts about the interpolated fill
and body parts. -/
theorem svgRulesTmpl_facts (fill body : String)
    (hfill : fill = "none" ∨ fill = "currentColor")
    (hbodyBS : '\\' ∉ body.data) (hbodyQ : '?' ∉ body.data) (hbodyEX : '!' ∉ body.data) :
    '\\' ∉ (svgRulesTmpl fill body).data ∧ '?' ∉ (svgRulesTmpl fill body).data ∧
    '!' ∉ (svgRulesTmpl fill body).data ∧
    (∃ rest, (svgRulesTmpl fill body).data = '<' :: 's' :: 'v' :: 'g' :: rest) ∧
    '>' ∈ (svgRulesTmpl fill body).data ∧
    jsTrim (svgRulesTmpl fill body).data = (svgRulesTmpl fill body).data := by
  have hdata : (svgRulesTmpl fill body).data =
      tmplA.data ++ (fill.data ++ (tmplB.data ++ (body.data ++ tmplC.data))) := by
    show (tmplA ++ fill ++ tmplB ++ body ++ tmplC).data = _
    simp [List.append_assoc]
  have hfillBS : '\\' ∉ fill.data := by rcases hfill with h | h <;> rw [h] <;> decide
  have hfillQ : '?' ∉ fill.data := by rcases hfill with h | h <;> rw [h] <;> decide
  have hfillEX : '!' ∉ fill.data := by rcases hfill with h | h <;> rw [h] <;> decide
  refine ⟨?_, ?_, ?_, ?_, ?_, ?_⟩
  · rw [hdata]
    simp only [List.mem_append, not_or]
    exact ⟨by decide, hfillBS, by decide, hbodyBS, by decide⟩
  · rw [hdata]
    simp only [List.mem_append, not_or]
    exact ⟨by decide, hfillQ, by decide, hbodyQ, by decide⟩
  · rw [hdata]
    simp only [List.mem_append, not_or]
    exact ⟨by decide, hfillEX, by decide, hbodyEX, by decide⟩
  · rw [hdata]
    rw [show (tmplA.data : List Char) = '<' :: 's' :: 'v' :: 'g' :: (tmplA.data.drop 4) from rfl]
    exact ⟨_, rfl⟩
  · rw [hdata]
    simp only [List.mem_append]
    right; right
    left
    decide
  · apply jsTrim_eq_self
    · intro c hc
      rw [hdata] at hc
      rw [show (tmplA.data ++ (fill.data ++ (tmplB.data ++ (body.data ++ tmplC.data)))).head?
          = some '<' from rfl] at hc
      simp only [Option.mem_def, Option.some.injEq] at hc
      rw [← hc]
      decide
    · intro c hc
      rw [hdata] at hc
      rw [show tmplA.data ++ (fill.data ++ (tmplB.data ++ (body.data ++ tmplC.data)))
          = (tmplA.data ++ fill.data ++ tmplB.data ++ body.data) ++ tmplC.data by
        simp [List.append_assoc]] at hc
      rw [List.getLast?_append_of_ne_nil _ (by decide)] at hc
      rw [show (tmplC.data : List Char).getLast? = some '>' from rfl] at hc
      simp only [Option.mem_def, Option.some.injEq] at hc
      rw [← hc]
      decide

theorem placeholderBody_chars (d : String) :
    ∀ ch ∈ (['\\', '?', '!'] : List Char),
      ch ∉ (placeholderBody ⟨((generateIconName d).data.take 2).map asciiToUpper⟩).data := by
  intro ch hch hmem
  simp only [List.mem_cons, List.not_mem_nil, or_false] at hch
  have hXX : ∀ c ∈ (String.mk (((generateIconName d).data.take 2).map asciiToUpper)).data,
      goodChar c = true := by
    intro c hc
    rw [data_mk] at hc
    obtain ⟨c', hc', rfl⟩ := List.mem_map.mp hc
    exact asciiToUpper_goodChar (generateIconName_chars d c' (List.take_subset _ _ hc'))
  have hdec : (placeholderBody ⟨((generateIconName d).data.take 2).map asciiToUpper⟩).data
      = phA.data ++ ((String.mk (((generateIconName d).data.take 2).map asciiToUpper)).data
        ++ phC.data) := by
    show (phA ++ _ ++ phC).data = _
    simp [List.append_assoc]
  rw [hdec] at hmem
  rcases List.mem_append.mp hmem with h1 | h2
  · revert h1
    rcases hch with h | h | h
    all_goals (subst h; decide)
  · rcases List.mem_append.mp h2 with h3 | h4
    · have hg := hXX ch h3
      obtain ⟨g1, g2, g3, _, _⟩ := goodChar_not_special hg
      rcases hch with h | h | h
      all_goals simp_all
    · revert h4
      rcases hch with h | h | h
      all_goals (subst h; decide)

theorem generateSVGByRules_facts (d p : String) :
    '\\' ∉ (generateSVGByRules d p).data ∧ '?' ∉ (generateSVGByRules d p).data ∧
    '!' ∉ (generateSVGByRules d p).data ∧
    (∃ rest, (generateSVGByRules d p).data = '<' :: 's' :: 'v' :: 'g' :: rest) ∧
    '>' ∈ (generateSVGByRules d p).data ∧
    jsTrim (generateSVGByRules d p).data = (generateSVGByRules d p).data := by
  unfold generateSVGByRules
  have hfill : (if p = "ant-design" then "none" else "currentColor") = "none" ∨
      (if p = "ant-design" then "none" else "currentColor") = "currentColor" := by
    split
    · exact Or.inl rfl
    · exact Or.inr rfl
  have hph := placeholderBody_chars d
  dsimp only
  split
  · exact svgRulesTmpl_facts _ _ hfill (by decide) (by decide) (by decide)
  · split
    · exact svgRulesTmpl_facts _ _ hfill (by decide) (by decide) (by decide)
    · split
      · exact svgRulesTmpl_facts _ _ hfill (by decide) (by decide) (by decide)
      · exact svgRulesTmpl_facts _ _ hfill (hph '\\' (by decide)) (hph '?' (by decide))
          (hph '!' (by decide))

end IconMcp

namespace IconMcp

theorem string_ne_empty_of_data {s : String} (h : s.data ≠ []) : s ≠ "" := by
  intro heq
  exact h (by rw [heq])

theorem generateSVGByRules_ne_empty (d p : String) : generateSVGByRules d p ≠ "" := by
  apply string_ne_empty_of_data
  obtain ⟨_, _, _, ⟨rest, hrest⟩, _, _⟩ := generateSVGByRules_facts d p
  rw [hrest]
  simp

theorem clean_generateSVGByRules_ne_empty (d p : String) :
    Core.cleanSvgContent (generateSVGByRules d p) ≠ "" := by
  obtain ⟨h1, h2, h3, h4, h5, h6⟩ := generateSVGByRules_facts d p
  unfold Core.cleanSvgContent
  rw [if_neg (generateSVGByRules_ne_empty d p)]
  apply string_ne_empty_of_data
  rw [data_mk]
  exact cleanList_good_ne_nil h1 h2 h3 h4 h5 h6

theorem mem_nonEmptyOr {r : IconRecord} {a b : List IconRecord}
    (h : r ∈ Core.nonEmptyOr a b) : r ∈ a ∨ r ∈ b := by
  unfold Core.nonEmptyOr at h
  split at h
  · exact Or.inr h
  · exact Or.inl h

/-- C2 counterexample: in src/services/iconGenerator.js, when SVG
generation fails (here: no credentials, no library match) `generateIcon`
returns its fallback record with nonzero `code` and empty `svg` and
`rawSvg`, contradicting the claim that every record — including
degraded ones — carries non-empty markup. -/
theorem c2_counterexample :
    (IconGen.generateIcon envGEmpty "user" "default" none).code = some (-1) ∧
    (IconGen.generateIcon envGEmpty "user" "default" none).svg = "" ∧
    (IconGen.generateIcon envGEmpty "user" "default" none).rawSvg = "" := by decide

/-- C2 (amended): in the pipeline module's `generateIcon`
(src/unnamed/part_002) every record whose `code` is present and nonzero —
the stock records — has non-empty `svg` and non-empty `rawSvg`, because
the rule-generated markup is never empty and the canonicalizer preserves
the injected width attribute.  The iconGenerator.js variant violates the
original claim: its fallback record has `code = -1` with empty markup. -/
theorem c2_amended_nonzero_code_markup (env : Env) (description pfx : String)
    (model name : Option String) (r : IconRecord)
    (hr : r ∈ Core.generateIcon env description pfx model name)
    (c : Int) (hc : r.code = some c) (hnz : c ≠ 0) :
    r.svg ≠ "" ∧ r.rawSvg ≠ "" := by
  unfold Core.generateIcon at hr
  dsimp only at hr
  rcases mem_nonEmptyOr hr with h1 | h23
  · obtain ⟨i, hi, hfr⟩ := List.mem_map.mp h1
    rw [← hfr] at hc
    simp only [Option.some.injEq] at hc
    exact absurd hc.symm hnz
  · rcases mem_nonEmptyOr h23 with h2 | h34
    · cases hg : Core.generateSVGCode env description pfx model with
      | none => rw [hg] at h2; simp at h2
      | some svgContent =>
        rw [hg] at h2
        dsimp only at h2
        split at h2
        · have heq := List.mem_singleton.mp h2
          rw [heq] at hc
          simp only [Option.some.injEq] at hc
          exact absurd hc.symm hnz
        · simp at h2
    · rcases mem_nonEmptyOr h34 with h3 | h4
      · obtain ⟨i, hi, hfr⟩ := List.mem_map.mp h3
        rw [← hfr] at hc
        simp at hc
      · have heq := List.mem_singleton.mp h4
        rw [heq]
        exact ⟨generateSVGByRules_ne_empty description pfx,
          clean_generateSVGByRules_ne_empty description pfx⟩

theorem generateIcon_envEmpty_eq :
    Core.generateIcon envEmpty "x" "default" none none = [Core.stockIcon "x" "default" "x"] :=
  rfl

theorem stockIcon_mem_envEmpty :
    Core.stockIcon "x" "default" "x" ∈ Core.generateIcon envEmpty "x" "default" none none := by
  rw [generateIcon_envEmpty_eq]
  exact List.mem_singleton_self _

/-- Witness for the amended C2 theorem: in the all-failing environment the
single stock record has nonzero code and non-empty markup. -/
theorem c2_amended_witness :
    (Core.stockIcon "x" "default" "x") ∈ Core.generateIcon envEmpty "x" "default" none none ∧
    (Core.stockIcon "x" "default" "x").code = some (-1) ∧ ((-1 : Int) ≠ 0) ∧
    (Core.stockIcon "x" "default" "x").svg ≠ "" ∧
    (Core.stockIcon "x" "default" "x").rawSvg ≠ "" :=
  ⟨stockIcon_mem_envEmpty, rfl, by decide,
    (c2_amended_nonzero_code_markup envEmpty "x" "default" none none _
      stockIcon_mem_envEmpty (-1) rfl (by decide)).1,
    (c2_amended_nonzero_code_markup envEmpty "x" "default" none none _
      stockIcon_mem_envEmpty (-1) rfl (by decide)).2⟩

end IconMcp
